import Mathlib

/-!
Verification development for the go.ndb codec (package `ndb`).

The Go sources `ndb.go`, `read.go`, `write.go` are shallowly embedded below:

* a line of input is modelled as a `String` (a list of Unicode scalars);
  `parseLine` of `read.go` is transcribed state for state.  All inputs in
  this development are ASCII, where one rune is one byte, so the byte
  offsets of the Go code coincide with character indices.  Go's
  `unicode.IsSpace`, `unicode.IsLetter` and `unicode.IsNumber` are modelled
  on the Latin-1 range (exact on ASCII).  The UTF-8 validity check of the
  source (`r == 0xFFFD && sz == 1`) cannot fire on a sequence of scalars
  and is omitted.
* the reflection-driven binder (`Decode`, `saveMap`, `saveStruct`,
  `storeVal`) and emitter (`Encode`, `encodeSlice`, `encodeStruct`,
  `encodeMap`, `writeTuple`, `validAttr`, `validVal`) operate over a small
  universe `GoType`/`GoVal` of the Go types exercised by the claims:
  `string`, `int` (64-bit), slices, maps with string keys, and structs of
  exported fields.
* the Line Source (`textproto.Reader.ReadContinuedLineBytes`) is an
  external collaborator; it is modelled at its interface as a list of
  logical lines, with end-of-input (`io.EOF`) when the list is empty.
* Go map insertion is modelled by in-place association-list update, and
  map iteration by the association-list order.
* Go runtime panics (out-of-range slice expressions, `SetBytes` on a
  non-byte slice) are modelled by an explicit `panicked` outcome.
-/

namespace Ndb

/-- Model of `unicode.IsSpace` on the Latin-1 range (exact on all ASCII
    inputs used in this development). -/
def goIsSpace (c : Char) : Bool :=
  c = ' ' || c = '\t' || c = '\n' || c = '\x0b' || c = '\x0c' || c = '\r' ||
  c = '\x85' || c = '\xa0'

/-- Model of `unicode.IsLetter` restricted to ASCII. -/
def goIsLetter (c : Char) : Bool :=
  ('a' ≤ c && c ≤ 'z') || ('A' ≤ c && c ≤ 'Z')

/-- Model of `unicode.IsNumber` restricted to ASCII. -/
def goIsNumber (c : Char) : Bool :=
  '0' ≤ c && c ≤ '9'

/-- The single-quote character, written by code so that source text stays
    quote-free. -/
def quoteChar : Char := '\x27'

/-- One decoded `(attribute, value)` pair (`type pair` of `read.go`).
    Go `nil` byte slices are modelled as the empty string. -/
structure Pair where
  attr : String
  val : String
deriving DecidableEq, Repr

/-- The integer-coded scanner states of `read.go`. -/
inductive ScanState where
  | scanNone
  | scanAttr
  | scanValue
  | scanValueStart
  | scanQuoteStart
  | scanQuoteValue
  | scanQuoteClose
deriving DecidableEq, Repr

/-- `scanState.top`: the top of the state stack, `scanNone` when empty. -/
def stackTop : List ScanState → ScanState
  | [] => .scanNone
  | s :: _ => s

/-- `scanState.pop`: drop the top of the stack (no-op on an empty stack). -/
def stackPop : List ScanState → List ScanState
  | [] => []
  | _ :: s => s

/-- Association-list membership, modelling `_, ok := m[k]` on a
    `map[string]struct{}`. -/
def setMem (s : List String) (k : String) : Bool := s.contains k

/-- Adding a key to a set-valued map (`m[k] = struct{}{}`). -/
def setAdd (s : List String) (k : String) : List String :=
  if s.contains k then s else s ++ [k]

/-- Lookup in an association list, modelling a Go map read. -/
def mapGet {α : Type} (m : List (String × α)) (k : String) : Option α :=
  match m with
  | [] => none
  | (k0, v0) :: rest => if k0 = k then some v0 else mapGet rest k

/-- In-place update-or-insert, modelling a Go map write `m[k] = v`. -/
def mapSet {α : Type} (m : List (String × α)) (k : String) (v : α) :
    List (String × α) :=
  match m with
  | [] => [(k, v)]
  | (k0, v0) :: rest =>
    if k0 = k then (k0, v) :: rest else (k0, v0) :: mapSet rest k v

/-- The mutable fields of `ndb.Decoder`, with the Line Source modelled at
    its interface as the list of remaining logical lines. -/
structure DecState where
  lines : List String
  pairbuf : List Pair
  finfo : List (String × Nat)
  havemulti : Bool
  attrs : List String
  multi : List String
deriving DecidableEq, Repr

/-- `NewDecoder`: fresh decoder over a given sequence of logical lines. -/
def newDecoder (ls : List String) : DecState :=
  { lines := ls, pairbuf := [], finfo := [], havemulti := false,
    attrs := [], multi := [] }

/-- `Decoder.reset` of `read.go`.  Note that it deletes from `d.attrs`
    only the keys present in `d.multi`. -/
def reset (d : DecState) : DecState :=
  { d with pairbuf := [], finfo := [],
           attrs := d.attrs.filter (fun k => !(setMem d.multi k)),
           multi := [], havemulti := false }

/-- The repeated-attribute bookkeeping block of `parseLine` (executed at
    the end of each attribute token). -/
def markAttr (d : DecState) (a : String) : DecState :=
  if setMem d.attrs a then
    { d with havemulti := true, multi := setAdd d.multi a }
  else
    { d with attrs := setAdd d.attrs a }

/-- `bytes.Replace(v, "''", "'", -1)`: leftmost non-overlapping
    replacement of doubled quotes by single quotes. -/
def unescapeQuotes : List Char → List Char
  | '\x27' :: '\x27' :: rest => '\x27' :: unescapeQuotes rest
  | c :: rest => c :: unescapeQuotes rest
  | [] => []

/-- The value post-processing `if esc { add.val = bytes.Replace(...) }`. -/
def mkVal (esc : Bool) (v : List Char) : String :=
  ⟨if esc then unescapeQuotes v else v⟩

/-- A Go slice expression `line[beg:off]`; `none` models the runtime
    panic raised when the bounds are out of range. -/
def goSlice (line : List Char) (beg off : Nat) : Option (List Char) :=
  if beg ≤ off ∧ off ≤ line.length then some ((line.drop beg).take (off - beg))
  else none

/-- Outcome of `parseLine`: the pair sequence, a `SyntaxError` (message and
    byte offset), or a runtime panic. -/
inductive LexResult where
  | ok (pairs : List Pair)
  | synErr (msg : String) (off : Nat)
  | panicked
deriving DecidableEq, Repr

def msgBadAttr : String := "Invalid attribute name"
def msgUnterminated : String := "Unterminated quoted string"
def msgMissingSpace : String := "Missing white space between tuples"

/-- The local mutable variables of `parseLine`: the state stack, `beg`,
    `esc`, and the pending `add.attr`. -/
structure LexSt where
  stack : List ScanState
  beg : Nat
  esc : Bool
  curAttr : String
deriving DecidableEq, Repr

/-- The end-of-line `switch state.top()` of `parseLine`.  In the
    `scanValueStart` case the Go code evaluates `line[offset:offset-1]`
    (after `beg = offset; offset--`), which is out of range whenever
    reached, so that case is a runtime panic. -/
def lexFinish (line : List Char) (d : DecState) (st : LexSt) (off : Nat) :
    LexResult × DecState :=
  match stackTop st.stack with
  | .scanQuoteValue => (.synErr msgUnterminated off, d)
  | .scanQuoteStart => (.synErr msgUnterminated off, d)
  | .scanAttr =>
    match goSlice line st.beg off with
    | none => (.panicked, d)
    | some a =>
      let astr : String := ⟨a⟩
      let d1 := markAttr d astr
      let d2 := { d1 with pairbuf := d1.pairbuf ++ [⟨astr, ""⟩] }
      (.ok d2.pairbuf, d2)
  | .scanValueStart => (.panicked, d)
  | .scanQuoteClose =>
    match goSlice line st.beg (off - 1) with
    | none => (.panicked, d)
    | some v =>
      let d1 := { d with pairbuf := d.pairbuf ++ [⟨st.curAttr, mkVal st.esc v⟩] }
      (.ok d1.pairbuf, d1)
  | .scanValue =>
    match goSlice line st.beg off with
    | none => (.panicked, d)
    | some v =>
      let d1 := { d with pairbuf := d.pairbuf ++ [⟨st.curAttr, mkVal st.esc v⟩] }
      (.ok d1.pairbuf, d1)
  | .scanNone => (.ok d.pairbuf, d)

/-- The per-rune loop of `parseLine`.  Each step consumes one rune and
    advances the byte offset by one (all inputs are ASCII).  The
    `scanValueStart` case inlines the `fallthrough` into the `scanValue`
    logic of the source. -/
def lexLoop (line : List Char) : DecState → LexSt → Nat → List Char →
    LexResult × DecState
  | d, st, off, [] => lexFinish line d st off
  | d, st, off, c :: rest =>
    match stackTop st.stack with
    | .scanNone =>
      if goIsSpace c then
        lexLoop line d st (off + 1) rest
      else if goIsLetter c || goIsNumber c then
        lexLoop line d { st with stack := .scanAttr :: st.stack, beg := off }
          (off + 1) rest
      else (.synErr msgBadAttr off, d)
    | .scanAttr =>
      if goIsSpace c then
        match goSlice line st.beg off with
        | none => (.panicked, d)
        | some a =>
          let astr : String := ⟨a⟩
          let d1 := { d with pairbuf := d.pairbuf ++ [⟨astr, ""⟩] }
          let d2 := markAttr d1 astr
          lexLoop line d2
            { st with stack := stackPop st.stack, esc := false, curAttr := "" }
            (off + 1) rest
      else if c = '=' then
        match goSlice line st.beg off with
        | none => (.panicked, d)
        | some a =>
          let astr : String := ⟨a⟩
          let d1 := markAttr d astr
          lexLoop line d1
            { st with stack := .scanValueStart :: stackPop st.stack,
                      curAttr := astr }
            (off + 1) rest
      else if goIsLetter c || goIsNumber c then
        lexLoop line d st (off + 1) rest
      else (.synErr msgBadAttr off, d)
    | .scanValueStart =>
      -- beg = offset; pop; push scanValue; quote opens a quoted value,
      -- anything else falls through to the scanValue logic below.
      let stack1 : List ScanState := .scanValue :: stackPop st.stack
      let st1 := { st with stack := stack1, beg := off }
      if c = quoteChar then
        lexLoop line d { st1 with stack := .scanQuoteStart :: stack1 }
          (off + 1) rest
      else if goIsSpace c then
        match goSlice line st1.beg off with
        | none => (.panicked, d)
        | some v =>
          let d1 := { d with pairbuf := d.pairbuf ++ [⟨st1.curAttr, mkVal st1.esc v⟩] }
          lexLoop line d1
            { st1 with stack := stackPop st1.stack, curAttr := "" }
            (off + 1) rest
      else lexLoop line d st1 (off + 1) rest
    | .scanValue =>
      if goIsSpace c then
        match goSlice line st.beg off with
        | none => (.panicked, d)
        | some v =>
          let d1 := { d with pairbuf := d.pairbuf ++ [⟨st.curAttr, mkVal st.esc v⟩] }
          lexLoop line d1
            { st with stack := stackPop st.stack, curAttr := "" }
            (off + 1) rest
      else lexLoop line d st (off + 1) rest
    | .scanQuoteClose =>
      let s1 := stackPop st.stack
      if c = quoteChar then
        lexLoop line d { st with stack := .scanQuoteValue :: s1, esc := true }
          (off + 1) rest
      else if goIsSpace c then
        match goSlice line st.beg (off - 1) with
        | none => (.panicked, d)
        | some v =>
          let d1 := { d with pairbuf := d.pairbuf ++ [⟨st.curAttr, mkVal st.esc v⟩] }
          lexLoop line d1
            { st with stack := stackPop s1, esc := false, curAttr := "" }
            (off + 1) rest
      else (.synErr msgMissingSpace off, d)
    | .scanQuoteStart =>
      let s1 := stackPop st.stack
      if c = quoteChar then
        lexLoop line d { st with stack := s1, esc := true } (off + 1) rest
      else
        lexLoop line d
          { st with stack := .scanQuoteValue :: stackPop s1, beg := st.beg + 1 }
          (off + 1) rest
    | .scanQuoteValue =>
      if c = quoteChar then
        lexLoop line d { st with stack := .scanQuoteClose :: stackPop st.stack }
          (off + 1) rest
      else if c = '\n' then (.synErr msgUnterminated off, d)
      else lexLoop line d st (off + 1) rest

/-- `Decoder.parseLine` of `read.go`. -/
def parseLine (d : DecState) (line : String) : LexResult × DecState :=
  lexLoop line.toList d ⟨[], 0, false, ""⟩ 0 line.toList

/-! ### The reflection universe

The Go types exercised by the claims: `int` (64-bit), `string`, slices,
maps with `string` keys (the only key type the claims use, so the
`storeVal(kv, p.attr)` key conversion of `saveMap` is the string
pass-through), and structs of exported (settable) fields.  A field tag of
`none` models an absent `ndb:"..."` annotation. -/

mutual
inductive GoType where
  | tInt
  | tString
  | tSlice (elem : GoType)
  | tMap (elem : GoType)
  | tStruct (fields : List GoField)
deriving Repr

inductive GoField where
  | mk (name : String) (tag : Option String) (typ : GoType)
deriving Repr
end

/-- The declared field name. -/
def GoField.name : GoField → String
  | .mk n _ _ => n

/-- The `ndb:"..."` tag, if any. -/
def GoField.tag : GoField → Option String
  | .mk _ t _ => t

/-- The field's type. -/
def GoField.typ : GoField → GoType
  | .mk _ _ t => t

/-- The decode/encode-time attribute name of a field: the tag if present,
    else the declared name (`saveStruct` and `encodeStruct`). -/
def fieldKey (f : GoField) : String :=
  match f.tag with
  | some t => t
  | none => f.name

/-- Modelled Go values, positionally matching their `GoType`. -/
inductive GoVal where
  | vInt (i : Int)
  | vStr (s : String)
  | vSlice (elems : List GoVal)
  | vMap (entries : List (String × GoVal))
  | vStruct (fields : List GoVal)
deriving Repr

mutual
/-- The zero value of a type (`reflect.New(...).Elem()`); nil slices and
    nil maps are identified with their empty forms. -/
def zeroVal : GoType → GoVal
  | .tInt => .vInt 0
  | .tString => .vStr ""
  | .tSlice _ => .vSlice []
  | .tMap _ => .vMap []
  | .tStruct fs => .vStruct (zeroFields fs)

/-- Zero values of a field list. -/
def zeroFields : List GoField → List GoVal
  | [] => []
  | .mk _ _ t :: fs => zeroVal t :: zeroFields fs
end

/-- Errors shared by the lexer, binder and emitter, plus the modelled
    collaborator outcomes. -/
inductive GoErr where
  | typeErr (t : Option GoType)
  | numErr (input : String)
  | syntaxErr (msg : String) (off : Nat)
  | eofErr
  | panicked
deriving Repr

/-! ### Decimal integer conversion (`strconv.ParseInt` base 10 bit size 64,
and the decimal text produced by `fmt.Fprint` on an `int`). -/

/-- The decimal digit characters. -/
def digitChar : Nat → Char
  | 0 => '0' | 1 => '1' | 2 => '2' | 3 => '3' | 4 => '4'
  | 5 => '5' | 6 => '6' | 7 => '7' | 8 => '8' | _ => '9'

/-- Decimal digits of a natural number, most significant first. -/
def natChars (n : Nat) : List Char :=
  if n = 0 then ['0'] else (Nat.digits 10 n).reverse.map digitChar

/-- Decimal text of an `int`, as printed by `fmt.Fprint`. -/
def goItoa (i : Int) : String :=
  if i < 0 then ⟨'-' :: natChars i.natAbs⟩ else ⟨natChars i.natAbs⟩

/-- Value of a run of decimal digit characters. -/
def digitsToNat (cs : List Char) : Nat :=
  cs.foldl (fun a c => a * 10 + (c.toNat - 48)) 0

/-- Parse a non-empty all-digit run. -/
def parseUnsigned (cs : List Char) : Option Nat :=
  if cs = [] then none
  else if cs.all goIsNumber then some (digitsToNat cs) else none

def int64Max : Nat := 2 ^ 63 - 1

/-- `strconv.ParseInt(s, 10, 64)`: optional sign, decimal digits,
    64-bit range check (`none` models a `*strconv.NumError`). -/
def goParseInt (s : String) : Option Int :=
  match s.toList with
  | [] => none
  | c :: cs =>
    if c = '+' then
      (parseUnsigned cs).bind fun n =>
        if n ≤ int64Max then some (n : Int) else none
    else if c = '-' then
      (parseUnsigned cs).bind fun n =>
        if n ≤ int64Max + 1 then some (-(n : Int)) else none
    else
      (parseUnsigned (c :: cs)).bind fun n =>
        if n ≤ int64Max then some (n : Int) else none

/-! ### Binder (decode direction): `storeVal`, `saveMap`, `saveStruct`,
`getPairs`, `Decode`, `decodeSlice` of `read.go`/`ndb.go`. -/

/-- `storeVal` of `read.go` on the modelled universe.  Scalar kinds fully
    overwrite the destination, so the old value is not consulted.  The
    `reflect.Slice` case calls `SetBytes`, which panics on every slice
    type in the universe (`[]byte` is not modelled); map- and struct-typed
    slots fall to the default case, a `TypeError` naming the slot's type.
    Pointer, bool, float and unsigned kinds are outside the universe. -/
def storeVal (t : GoType) (src : String) : Except GoErr GoVal :=
  match t with
  | .tInt =>
    match goParseInt src with
    | some i => .ok (.vInt i)
    | none => .error (.numErr src)
  | .tString => .ok (.vStr src)
  | .tSlice _ => .error .panicked
  | .tMap _ => .error (.typeErr (some t))
  | .tStruct _ => .error (.typeErr (some t))

/-- The repeated-attribute branch of `saveMap`: every pair appends to the
    slice at its key (a missing key starts from a fresh empty slice).
    Errors abort mid-loop, keeping earlier map writes. -/
def saveMapMulti (elemT : GoType) :
    List Pair → List (String × GoVal) →
    Except GoErr Unit × List (String × GoVal)
  | [], m => (.ok (), m)
  | p :: rest, m =>
    match storeVal .tString p.attr with
    | .error e => (.error e, m)
    | .ok _ =>
      match storeVal elemT p.val with
      | .error e => (.error e, m)
      | .ok v =>
        let slot :=
          match mapGet m p.attr with
          | some (.vSlice l) => l
          | _ => []
        saveMapMulti elemT rest (mapSet m p.attr (.vSlice (slot ++ [v])))

/-- The single-valued branch of `saveMap`: each pair overwrites the entry
    at its key.  Errors abort mid-loop, keeping earlier map writes. -/
def saveMapSingle (elemT : GoType) :
    List Pair → List (String × GoVal) →
    Except GoErr Unit × List (String × GoVal)
  | [], m => (.ok (), m)
  | p :: rest, m =>
    match storeVal .tString p.attr with
    | .error e => (.error e, m)
    | .ok _ =>
      match storeVal elemT p.val with
      | .error e => (.error e, m)
      | .ok v => saveMapSingle elemT rest (mapSet m p.attr v)

/-- `Decoder.saveMap` of `read.go`. -/
def saveMap (d : DecState) (elemT : GoType) (pairs : List Pair)
    (m : List (String × GoVal)) :
    Except GoErr Unit × List (String × GoVal) :=
  if d.havemulti then
    match elemT with
    | .tSlice e => saveMapMulti e pairs m
    | _ => (.error (.typeErr (some (.tMap elemT))), m)
  else saveMapSingle elemT pairs m

/-- The field-index loop of `saveStruct`: `d.finfo[tag or name] = index`
    for every (settable) field, in declaration order. -/
def buildFinfo : Nat → List GoField → List (String × Nat) →
    List (String × Nat)
  | _, [], m => m
  | i, f :: fs, m => buildFinfo (i + 1) fs (mapSet m (fieldKey f) i)

/-- The pair loop of `saveStruct`.  Unknown attributes are silently
    dropped; a repeated attribute requires a slice-typed field and
    appends; errors abort mid-loop, keeping earlier field writes. -/
def saveStructLoop (multi : List String) (finfo : List (String × Nat))
    (fs : List GoField) :
    List Pair → List GoVal → Except GoErr Unit × List GoVal
  | [], fields => (.ok (), fields)
  | p :: rest, fields =>
    match mapGet finfo p.attr with
    | none => saveStructLoop multi finfo fs rest fields
    | some idx =>
      let fty := match fs.get? idx with
        | some f => f.typ
        | none => .tString
      if setMem multi p.attr then
        match fty with
        | .tSlice elemT =>
          match storeVal elemT p.val with
          | .error e => (.error e, fields)
          | .ok v =>
            let old := match fields.get? idx with
              | some (.vSlice l) => l
              | _ => []
            saveStructLoop multi finfo fs rest
              (fields.set idx (.vSlice (old ++ [v])))
        | _ => (.error (.typeErr (some fty)), fields)
      else
        match storeVal fty p.val with
        | .error e => (.error e, fields)
        | .ok v => saveStructLoop multi finfo fs rest (fields.set idx v)

/-- `Decoder.saveStruct` of `read.go`. -/
def saveStruct (d : DecState) (fs : List GoField) (pairs : List Pair)
    (fields : List GoVal) : Except GoErr Unit × DecState × List GoVal :=
  let finfo2 := buildFinfo 0 fs d.finfo
  let d2 := { d with finfo := finfo2 }
  let (r, fields2) := saveStructLoop d.multi finfo2 fs pairs fields
  (r, d2, fields2)

/-- `Decoder.getPairs`: read one logical line (or `io.EOF`), reset the
    per-call state, tokenize. -/
def getPairs (d : DecState) : Except GoErr (List Pair) × DecState :=
  match d.lines with
  | [] => (.error .eofErr, d)
  | l :: rest =>
    let d1 := reset { d with lines := rest }
    match parseLine d1 l with
    | (.ok ps, d2) => (.ok ps, d2)
    | (.synErr m o, d2) => (.error (.syntaxErr m o), d2)
    | (.panicked, d2) => (.error .panicked, d2)

/-- `Decoder.Decode` for a non-slice pointee: `getPairs` first, then
    dispatch on the pointee kind (default is a `TypeError`). The triple is
    (returned error, decoder state, pointee value after the call). -/
def Decode1 (d : DecState) (t : GoType) (v : GoVal) :
    Except GoErr Unit × DecState × GoVal :=
  match getPairs d with
  | (.error e, d1) => (.error e, d1, v)
  | (.ok ps, d1) =>
    match t, v with
    | .tMap elemT, .vMap m =>
      let (r, m2) := saveMap d1 elemT ps m
      (r, d1, .vMap m2)
    | .tStruct fsv, .vStruct fields =>
      let (r, d2, fields2) := saveStruct d1 fsv ps fields
      (r, d2, .vStruct fields2)
    | t0, _ => (.error (.typeErr (some t0)), d1, v)

mutual
/-- `Decoder.Decode`, fuelled: `none` models a call that has not returned
    within `fuel` loop iterations (so `∀ fuel, ... = none` models
    divergence).  A slice pointee enters the `decodeSlice` loop. -/
def DecodeF : Nat → DecState → GoType → GoVal →
    Option (Except GoErr Unit × DecState × GoVal)
  | 0, _, _, _ => none
  | n + 1, d, t, v =>
    match t with
    | .tSlice elemT =>
      match v with
      | .vSlice acc => decodeSliceLoop n d elemT (zeroVal elemT) acc
      | _ => some (.error (.typeErr (some (.tSlice elemT))), d, v)
    | _ => some (Decode1 d t v)

/-- The loop of `decodeSlice` in `read.go`, transcribed with its actual
    condition: the body (append an element, re-decode) runs while
    `err != nil`, and the loop exits when a `Decode` call succeeds; the
    trailing `err == io.EOF` test is then dead.  `addv` is the single
    reused `reflect.New` allocation. -/
def decodeSliceLoop : Nat → DecState → GoType → GoVal → List GoVal →
    Option (Except GoErr Unit × DecState × GoVal)
  | 0, _, _, _, _ => none
  | n + 1, d, elemT, addv, acc =>
    match DecodeF n d elemT addv with
    | none => none
    | some (.error _, d1, addv1) =>
      decodeSliceLoop n d1 elemT addv1 (acc ++ [addv1])
    | some (.ok _, d1, _) => some (.ok (), d1, .vSlice acc)
end

/-! ### Emitter (encode direction): `write.go`. -/

/-- `validAttr`'s character test (the body of its `bytes.IndexFunc`):
    `true` means the character is rejected. -/
def attrBadChar (r : Char) : Bool :=
  if r = quoteChar then true
  else if goIsSpace r then true
  else !(goIsLetter r) && !(goIsNumber r) && !(r = '-')

/-- `validAttr` of `write.go` (`utf8.Valid` always holds on a sequence of
    scalars). -/
def validAttr (attr : String) : Bool :=
  !(attr.toList.any attrBadChar)

/-- `validVal` of `write.go`. -/
def validVal (v : String) : Bool :=
  !(v.toList.contains '\n')

/-- `bytes.Replace(val, "'", "''", -1)`: double every quote. -/
def escapeQuotes : List Char → List Char
  | [] => []
  | c :: rest =>
    if c = quoteChar then c :: c :: escapeQuotes rest
    else c :: escapeQuotes rest

/-- The sink-facing encoder state: the `start` separator flag and the list
    of chunks written to the underlying `io.Writer`. -/
structure EncState where
  start : Bool
  out : List String
deriving DecidableEq, Repr

/-- `fmt.Fprint` of one element value (scalars only; composite elements
    never reach this position in the claims). -/
def goFprintVal : GoVal → String
  | .vInt i => goItoa i
  | .vStr s => s
  | _ => ""

/-- One iteration of `writeTuple`'s element loop.  Note the tuple
    separator is written before the attribute and value are validated. -/
def writeElem (e : EncState) (attr : String) (v : GoVal) :
    Except GoErr Unit × EncState :=
  let valS := goFprintVal v
  let e1 := if e.start then { e with out := e.out ++ [" "] }
            else { e with start := true }
  if !(validAttr attr) then
    (.error (.syntaxErr ("Invalid attribute " ++ attr) 0), e1)
  else if !(validVal valS) then
    (.error (.syntaxErr ("Invalid value " ++ valS) 0), e1)
  else
    let val2 := if valS.toList.contains quoteChar
                then (⟨escapeQuotes valS.toList⟩ : String) else valS
    let e2 := { e1 with out := e1.out ++ [attr, "="] }
    let hasSpace := val2.toList.any goIsSpace
    let e3 := if hasSpace then { e2 with out := e2.out ++ [⟨[quoteChar]⟩] }
              else e2
    let e4 := { e3 with out := e3.out ++ [val2] }
    let e5 := if hasSpace then { e4 with out := e4.out ++ [⟨[quoteChar]⟩] }
              else e4
    (.ok (), e5)

/-- A non-slice value is wrapped in a one-element slice by `writeTuple`. -/
def tupleValues : GoVal → List GoVal
  | .vSlice l => l
  | v => [v]

/-- The element loop of `writeTuple`. -/
def writeTuple (e : EncState) (attr : String) :
    List GoVal → Except GoErr Unit × EncState
  | [] => (.ok (), e)
  | v :: rest =>
    match writeElem e attr v with
    | (.error err, e1) => (.error err, e1)
    | (.ok _, e1) => writeTuple e1 attr rest

/-- `encodeStruct`: one tuple per field, in declaration order; the first
    error aborts. -/
def encodeStruct (e : EncState) :
    List GoField → List GoVal → Except GoErr Unit × EncState
  | f :: fr, v :: vr =>
    match writeTuple e (fieldKey f) (tupleValues v) with
    | (.error err, e1) => (.error err, e1)
    | (.ok _, e1) => encodeStruct e1 fr vr
  | _, _ => (.ok (), e)

/-- `encodeMap`: one tuple per entry (iteration order modelled as the
    association-list order); the first error aborts. -/
def encodeMap (e : EncState) :
    List (String × GoVal) → Except GoErr Unit × EncState
  | [] => (.ok (), e)
  | (k, v) :: rest =>
    match writeTuple e k (tupleValues v) with
    | (.error err, e1) => (.error err, e1)
    | (.ok _, e1) => encodeMap e1 rest

mutual
/-- `Encoder.Encode`, fuelled for the slice recursion.  The deferred
    `e.start = false` runs on every path. -/
def EncodeF : Nat → EncState → GoType → GoVal →
    Option (Except GoErr Unit × EncState)
  | 0, _, _, _ => none
  | n + 1, e, t, v =>
    let inner : Option (Except GoErr Unit × EncState) :=
      match t, v with
      | .tSlice elemT, .vSlice elems => encodeSliceF n e elemT elems
      | .tStruct fsv, .vStruct fields => some (encodeStruct e fsv fields)
      | .tMap _, .vMap entries => some (encodeMap e entries)
      | t0, _ => some (.error (.typeErr (some t0)), e)
    match inner with
    | none => none
    | some (r, e1) => some (r, { e1 with start := false })

/-- `encodeSlice` of `write.go`, transcribed as written: the error of
    each element's `Encode` call is discarded and the loop always
    returns `nil`. -/
def encodeSliceF : Nat → EncState → GoType → List GoVal →
    Option (Except GoErr Unit × EncState)
  | _, e, _, [] => some (.ok (), e)
  | 0, _, _, _ :: _ => none
  | n + 1, e, elemT, v :: rest =>
    match EncodeF n e elemT v with
    | none => none
    | some (_, e1) => encodeSliceF n e1 elemT rest
end

/-- `Marshal`: encode into a fresh buffer; the buffer's contents are
    returned only on success. -/
def Marshal (fuel : Nat) (t : GoType) (v : GoVal) :
    Option (Except GoErr String) :=
  match EncodeF fuel ⟨false, []⟩ t v with
  | none => none
  | some (.error e, _) => some (.error e)
  | some (.ok _, es) => some (.ok (String.join es.out))

/-- `Unmarshal` into a pointer-to-struct: a fresh decoder over the data
    (one logical line when the data has no line terminator), then a
    single `Decode`. -/
def UnmarshalRecord (data : String) (fs : List GoField)
    (fields : List GoVal) : Except GoErr Unit × DecState × GoVal :=
  Decode1 (newDecoder [data]) (.tStruct fs) (.vStruct fields)

/-- `decode(encode(v))` for a record value: Marshal, then Unmarshal into a
    fresh zero value of the same type; `some` of the resulting value when
    both directions succeed. -/
def roundTrip (fs : List GoField) (vals : List GoVal) : Option GoVal :=
  match Marshal 2 (.tStruct fs) (.vStruct vals) with
  | some (.ok s) =>
    match UnmarshalRecord s fs (zeroFields fs) with
    | (.ok _, _, v) => some v
    | _ => none
  | _ => none

/-- Alphanumeric shorthand for the lexer's attribute class. -/
def isAlnum (c : Char) : Bool := goIsLetter c || goIsNumber c

/-- Tokens joined by single spaces (the shape of the lines the universal
    claims quantify over). -/
def sepJoin : List (List Char) → List Char
  | [] => []
  | [u] => u
  | u :: us => u ++ ' ' :: sepJoin us

/-- String-level token joining used in claim statements. -/
def attrLine : List String → String
  | [] => ""
  | [t] => t
  | t :: ts => t ++ " " ++ attrLine ts

/-- The emitted text of one value: quoted iff it contains whitespace
    (`writeTuple`'s `IndexFunc` test). -/
def renderVal (w : List Char) : List Char :=
  if w.any goIsSpace then quoteChar :: (w ++ [quoteChar]) else w

/-- The emitted text of one `attr=value` tuple. -/
def renderTuple (k : String) (w : List Char) : List Char :=
  k.toList ++ '=' :: renderVal w

/-- Decoder-state effect of lexing one `attr=value` tuple: the repeat
    bookkeeping at the `=`, then the pair appended at the value's end. -/
def lexTupleStep (d : DecState) (k : String) (w : List Char) : DecState :=
  let d1 := markAttr d k
  { d1 with pairbuf := d1.pairbuf ++ [⟨k, ⟨w⟩⟩] }

/-- Iterated `lexTupleStep` over a tuple list. -/
def lexRunState (d : DecState) : List (String × List Char) → DecState
  | [] => d
  | (k, w) :: rest => lexRunState (lexTupleStep d k w) rest

/-- The chunks `writeElem` appends to the sink for one tuple. -/
def tupleChunks (start : Bool) (k w : String) : List String :=
  (if start then [" "] else []) ++ [k, "="] ++
  (if w.toList.any goIsSpace then [⟨[quoteChar]⟩, w, ⟨[quoteChar]⟩] else [w])

/-- The chunks `encodeStruct` appends for a (zipped) field list. -/
def encOut (start : Bool) : List (GoField × GoVal) → List String
  | [] => []
  | (f, v) :: rest =>
    tupleChunks start (fieldKey f) (goFprintVal v) ++ encOut true rest

/-- Attribute names the amended round-trip claim ranges over: non-empty,
    (ASCII) letters and digits only. -/
def goodAttr (a : String) : Bool :=
  !a.toList.isEmpty && a.toList.all isAlnum

/-- String field values the amended round-trip claim ranges over:
    non-empty ASCII text without single quotes or line terminators
    (the ASCII bound keeps the character-class model exact for Go). -/
def goodStr (s : String) : Bool :=
  !s.toList.isEmpty &&
  s.toList.all (fun c => !(c = quoteChar) && !(c = '
') && c.toNat < 128)

/-- One field/value pair of the amended round-trip claim: a string field
    with a `goodStr` value, or an `int` field within 64-bit range. -/
def goodPair (f : GoField) (v : GoVal) : Bool :=
  goodAttr (fieldKey f) &&
  match f.typ, v with
  | .tString, .vStr s => goodStr s
  | .tInt, .vInt i => decide (-(2 ^ 63 : Int) ≤ i) && decide (i ≤ 2 ^ 63 - 1)
  | _, _ => false

/-- The amended round-trip claim's hypothesis on a record: aligned simple
    scalar fields and no two fields sharing a decode-time attribute
    name. -/
def GoodRecord (fs : List GoField) (vs : List GoVal) : Prop :=
  fs.length = vs.length ∧
  (∀ p ∈ fs.zip vs, goodPair p.1 p.2 = true) ∧
  (fs.map fieldKey).Nodup

/-! ### Lexer-run lemmas

Symbolic executions of `lexLoop` over well-formed token runs, used by the
universal theorems below. -/

lemma alnum_ne {c x : Char} (h : isAlnum c = true) (hx : isAlnum x = false) :
    ¬ c = x := fun he => by subst he; rw [h] at hx; cases hx

lemma alnum_not_space {c : Char} (h : isAlnum c = true) :
    goIsSpace c = false := by
  cases hsp : goIsSpace c
  · rfl
  · exfalso
    unfold goIsSpace at hsp
    simp only [Bool.or_eq_true, decide_eq_true_eq] at hsp
    rcases hsp with ((((((h1 | h1) | h1) | h1) | h1) | h1) | h1) | h1 <;>
      (subst h1; exact absurd h (by decide))

lemma markAttr_pairbuf (d : DecState) (a : String) :
    (markAttr d a).pairbuf = d.pairbuf := by
  unfold markAttr; split <;> rfl

lemma markAttr_lines (d : DecState) (a : String) :
    (markAttr d a).lines = d.lines := by
  unfold markAttr; split <;> rfl

/-- A `goSlice` spanning a known decomposition of the line's suffix. -/
lemma goSlice_of_drop {line u v : List Char} {off : Nat}
    (hd : line.drop off = u ++ v) (hne : u ≠ []) :
    goSlice line off (off + u.length) = some u := by
  have hlen : line.length - off = u.length + v.length := by
    have h1 := congrArg List.length hd
    simpa using h1
  have hoff : off ≤ line.length := by
    by_contra hlt
    push_neg at hlt
    have h0 : line.drop off = [] := List.drop_eq_nil_of_le (le_of_lt hlt)
    rw [h0] at hd
    cases u with
    | nil => exact hne rfl
    | cons x xs => simp at hd
  unfold goSlice
  rw [if_pos ⟨Nat.le_add_right _ _, by omega⟩]
  have h2 : off + u.length - off = u.length := by omega
  rw [h2, hd, List.take_left]

/-- Scanning the tail of an attribute token: alphanumeric characters keep
    the machine in `scanAttr` and only advance the offset. -/
lemma lexLoop_attr_run (line : List Char) (cs : List Char)
    (h : ∀ c ∈ cs, isAlnum c = true) :
    ∀ (rest : List Char) (d : DecState) (b : Nat) (e : Bool) (a : String)
      (off : Nat),
      lexLoop line d ⟨[.scanAttr], b, e, a⟩ off (cs ++ rest) =
      lexLoop line d ⟨[.scanAttr], b, e, a⟩ (off + cs.length) rest := by
  induction cs with
  | nil => intro rest d b e a off; simp
  | cons c cs ih =>
    intro rest d b e a off
    have hc : isAlnum c = true := h c (by simp)
    have hs : goIsSpace c = false := alnum_not_space hc
    have he : ¬ c = '=' := alnum_ne hc (by decide)
    have hrest := ih (fun c0 hc0 => h c0 (by simp [hc0])) rest d b e a (off + 1)
    have hc2 : (goIsLetter c || goIsNumber c) = true := hc
    calc lexLoop line d ⟨[.scanAttr], b, e, a⟩ off ((c :: cs) ++ rest)
        = lexLoop line d ⟨[.scanAttr], b, e, a⟩ (off + 1) (cs ++ rest) := by
          simp [lexLoop, stackTop, hs, he, hc2]
      _ = lexLoop line d ⟨[.scanAttr], b, e, a⟩ (off + 1 + cs.length) rest := hrest
      _ = lexLoop line d ⟨[.scanAttr], b, e, a⟩ (off + (c :: cs).length) rest := by
          have : off + 1 + cs.length = off + (c :: cs).length := by
            simp [List.length_cons]; omega
          rw [this]

/-- Advancing a known suffix decomposition past its first block. -/
lemma drop_of_drop_eq {line u r : List Char} {off : Nat}
    (h : line.drop off = u ++ r) : line.drop (off + u.length) = r := by
  rw [(List.drop_drop u.length off line).symm, h, List.drop_left]

lemma attrLine_toList (ts : List String) :
    (attrLine ts).toList = sepJoin (ts.map String.toList) := by
  induction ts with
  | nil => rfl
  | cons t ts ih =>
    cases ts with
    | nil => rfl
    | cons t2 ts2 =>
      show (t ++ " " ++ attrLine (t2 :: ts2)).toList =
        t.toList ++ ' ' :: sepJoin ((t2 :: ts2).map String.toList)
      rw [← ih]
      simp [String.toList, String.data_append]

/-- Attribute-only tokens: scanning a line of alphanumeric tokens joined
    by single spaces appends one pair per token, each with an empty
    value. -/
lemma lexLoop_attr_only (line : List Char) :
    ∀ (toks : List (List Char)) (off : Nat) (d : DecState) (b : Nat)
      (e : Bool) (a : String),
      toks ≠ [] →
      (∀ u ∈ toks, u ≠ [] ∧ ∀ c ∈ u, isAlnum c = true) →
      line.drop off = sepJoin toks →
      (lexLoop line d ⟨[], b, e, a⟩ off (sepJoin toks)).1 =
        .ok (d.pairbuf ++ toks.map (fun u => ⟨⟨u⟩, ""⟩)) := by
  intro toks
  induction toks with
  | nil => intro off d b e a hne _ _; exact absurd rfl hne
  | cons t ts ih =>
    intro off d b e a _ hwf hdrop
    obtain ⟨htne, hta⟩ := hwf t (by simp)
    obtain ⟨c0, cs, rfl⟩ : ∃ c0 cs, t = c0 :: cs := by
      cases t with
      | nil => exact absurd rfl htne
      | cons x xs => exact ⟨x, xs, rfl⟩
    have hc0 : isAlnum c0 = true := hta c0 (by simp)
    have hc0s : goIsSpace c0 = false := alnum_not_space hc0
    have hc0or : (goIsLetter c0 || goIsNumber c0) = true := hc0
    have hcs : ∀ c ∈ cs, isAlnum c = true := fun c hc => hta c (by simp [hc])
    cases ts with
    | nil =>
      have hd2 : line.drop off = (c0 :: cs) ++ [] := by simpa using hdrop
      have hslice : goSlice line off (off + (c0 :: cs).length) = some (c0 :: cs) :=
        goSlice_of_drop hd2 (by simp)
      have hslice2 : goSlice line off (off + (cs.length + 1)) = some (c0 :: cs) := by
        simpa using hslice
      have step1 : lexLoop line d ⟨[], b, e, a⟩ off (c0 :: cs) =
          lexLoop line d ⟨[.scanAttr], off, e, a⟩ (off + 1) cs := by
        simp [lexLoop, stackTop, hc0s, hc0or]
      have step2 : lexLoop line d ⟨[.scanAttr], off, e, a⟩ (off + 1) cs =
          lexLoop line d ⟨[.scanAttr], off, e, a⟩ (off + (c0 :: cs).length) [] := by
        have h0 := lexLoop_attr_run line cs hcs [] d off e a (off + 1)
        rw [List.append_nil] at h0
        rw [h0]
        have : off + 1 + cs.length = off + (c0 :: cs).length := by
          simp [List.length_cons]; omega
        rw [this]
      have step3 : (lexFinish line d ⟨[.scanAttr], off, e, a⟩
          (off + (c0 :: cs).length)).1 = .ok (d.pairbuf ++ [⟨⟨c0 :: cs⟩, ""⟩]) := by
        simp [lexFinish, stackTop, hslice, hslice2, markAttr_pairbuf]
      show (lexLoop line d ⟨[], b, e, a⟩ off (c0 :: cs)).1 = _
      rw [step1, step2]
      show (lexFinish line d ⟨[.scanAttr], off, e, a⟩ (off + (c0 :: cs).length)).1 = _
      rw [step3]
      simp
    | cons t2 ts2 =>
      have hd2 : line.drop off =
          (c0 :: cs) ++ (' ' :: sepJoin (t2 :: ts2)) := hdrop
      have hslice : goSlice line off (off + (c0 :: cs).length) = some (c0 :: cs) :=
        goSlice_of_drop hd2 (by simp)
      have hslice2 : goSlice line off (off + (cs.length + 1)) = some (c0 :: cs) := by
        simpa using hslice
      have step1 : lexLoop line d ⟨[], b, e, a⟩ off
            ((c0 :: cs) ++ ' ' :: sepJoin (t2 :: ts2)) =
          lexLoop line d ⟨[.scanAttr], off, e, a⟩ (off + 1)
            (cs ++ ' ' :: sepJoin (t2 :: ts2)) := by
        simp [lexLoop, stackTop, hc0s, hc0or]
      have step2 : lexLoop line d ⟨[.scanAttr], off, e, a⟩ (off + 1)
            (cs ++ ' ' :: sepJoin (t2 :: ts2)) =
          lexLoop line d ⟨[.scanAttr], off, e, a⟩ (off + (c0 :: cs).length)
            (' ' :: sepJoin (t2 :: ts2)) := by
        rw [lexLoop_attr_run line cs hcs _ d off e a (off + 1)]
        have : off + 1 + cs.length = off + (c0 :: cs).length := by
          simp [List.length_cons]; omega
        rw [this]
      have step3 : lexLoop line d ⟨[.scanAttr], off, e, a⟩
            (off + (c0 :: cs).length) (' ' :: sepJoin (t2 :: ts2)) =
          lexLoop line
            (markAttr { d with pairbuf := d.pairbuf ++ [⟨⟨c0 :: cs⟩, ""⟩] }
              ⟨c0 :: cs⟩)
            ⟨[], off, false, ""⟩ (off + (c0 :: cs).length + 1)
            (sepJoin (t2 :: ts2)) := by
        have hsp : goIsSpace ' ' = true := rfl
        simp [lexLoop, stackTop, hsp, hslice, hslice2, stackPop]
      have hdrop2 : line.drop (off + (c0 :: cs).length + 1) =
          sepJoin (t2 :: ts2) := by
        have h6 : line.drop off =
            ((c0 :: cs) ++ [' ']) ++ sepJoin (t2 :: ts2) := by
          simpa using hd2
        have h7 := drop_of_drop_eq h6
        simpa [Nat.add_assoc] using h7
      have ihr := ih (off + (c0 :: cs).length + 1)
        (markAttr { d with pairbuf := d.pairbuf ++ [⟨⟨c0 :: cs⟩, ""⟩] }
          ⟨c0 :: cs⟩) off false "" (by simp)
        (fun u hu => hwf u (by simp [hu])) hdrop2
      show (lexLoop line d ⟨[], b, e, a⟩ off
          ((c0 :: cs) ++ ' ' :: sepJoin (t2 :: ts2))).1 = _
      rw [step1, step2, step3, ihr, markAttr_pairbuf]
      simp

/-! ### Claim theorems: concrete executions -/

/-- C7: the lexer resolves a doubled quote at value start as an escaped
    literal quote: `action=''bradley ...` tokenizes with first value
    `'bradley` (not an empty value), and `esc='Use '''' to escape a '''`
    tokenizes to the single value `Use '' to escape a '`. -/
theorem C7_doubled_quote_at_value_start :
    (parseLine (newDecoder [])
      "action=\x27\x27bradley key=jay mod=ctrl+alt+shift").1 =
      .ok [⟨"action", "\x27bradley"⟩, ⟨"key", "jay"⟩,
           ⟨"mod", "ctrl+alt+shift"⟩] ∧
    (parseLine (newDecoder [])
      "esc=\x27Use \x27\x27\x27\x27 to escape a \x27\x27\x27").1 =
      .ok [⟨"esc", "Use \x27\x27 to escape a \x27"⟩] := by
  constructor <;> rfl

/-- C9: decoding `user=clive user=david user=trenton group=dirty-dozen`
    into a `map[string][]string` yields exactly
    `{user: [clive, david, trenton], group: [dirty-dozen]}`, with the
    repeated attribute's values in left-to-right source order. -/
theorem C9_multi_map_decode :
    Decode1 (newDecoder ["user=clive user=david user=trenton group=dirty-dozen"])
        (.tMap (.tSlice .tString)) (.vMap []) =
      (.ok (),
       { lines := [],
         pairbuf := [⟨"user", "clive"⟩, ⟨"user", "david"⟩,
                     ⟨"user", "trenton"⟩, ⟨"group", "dirty-dozen"⟩],
         finfo := [], havemulti := true,
         attrs := ["user", "group"], multi := ["user"] },
       .vMap [("user", .vSlice [.vStr "clive", .vStr "david", .vStr "trenton"]),
              ("group", .vSlice [.vStr "dirty-dozen"])]) := by
  rfl

/-- C3 fails on the code: the lexer rejects `-` inside an attribute token
    (`scanAttr` accepts only letters and numbers), raising the
    bad-attribute error at byte offset 4 of the repository's own
    `TestAdvanced` input, while the emitter's `validAttr` accepts the very
    same attribute text.  The claimed common character class
    (letters, numbers, `-`) holds only for the emitter. -/
theorem C3_lexer_rejects_dash_despite_validAttr :
    (parseLine (newDecoder [])
      "host-name=p2-jbs537 vlan=66 vlan=35 native-vlan=218").1 =
      .synErr msgBadAttr 4 ∧
    validAttr "host-name" = true := by
  constructor <;> rfl

/-- C1 fails on the code: `decodeSlice`'s loop runs its body only while
    `Decode` returns an error, so on an input of one well-formed line the
    first (successful) `Decode` exits the loop before any append, and the
    call returns success with the slice still empty instead of one
    element per line. -/
theorem C1_decodeSlice_appends_nothing_on_success :
    DecodeF 5 (newDecoder ["a=1"]) (.tSlice (.tMap .tString)) (.vSlice []) =
      some (.ok (),
        { lines := [], pairbuf := [⟨"a", "1"⟩], finfo := [],
          havemulti := false, attrs := ["a"], multi := [] },
        .vSlice []) := by
  rfl

/-- C4 fails on the code: `reset` deletes from `d.attrs` only the keys
    recorded in `d.multi`, so an attribute seen once in an earlier decode
    call survives into the next call.  Decoding the lines `a=1` then
    `a=2` with one decoder makes the second call treat `a` as repeated
    and fail with a type error on a `map[string]string` destination,
    while a fresh decoder decodes the same second line successfully. -/
theorem C4_multiplicity_leaks_across_calls :
    (Decode1 (newDecoder ["a=1", "a=2"]) (.tMap .tString) (.vMap [])).1 =
      .ok () ∧
    Decode1 (Decode1 (newDecoder ["a=1", "a=2"]) (.tMap .tString)
        (.vMap [])).2.1 (.tMap .tString) (.vMap []) =
      (.error (.typeErr (some (.tMap .tString))),
       { lines := [], pairbuf := [⟨"a", "2"⟩], finfo := [],
         havemulti := true, attrs := ["a"], multi := ["a"] },
       .vMap []) ∧
    Decode1 (newDecoder ["a=2"]) (.tMap .tString) (.vMap []) =
      (.ok (),
       { lines := [], pairbuf := [⟨"a", "2"⟩], finfo := [],
         havemulti := false, attrs := ["a"], multi := [] },
       .vMap [("a", .vStr "2")]) := by
  refine ⟨rfl, rfl, rfl⟩

/-- C5 fails on the code: `saveStruct` writes fields pair by pair, so a
    type error on a later pair (here the unparsable number for field `B`)
    returns an error while the earlier write to field `A` survives: the
    destination after the failed call differs from its value before the
    call. -/
theorem C5_partial_write_survives_type_error :
    Decode1 (newDecoder ["A=x B=notanum"])
        (.tStruct [.mk "A" none .tString, .mk "B" none .tInt])
        (.vStruct [.vStr "", .vInt 0]) =
      (.error (.numErr "notanum"),
       { lines := [], pairbuf := [⟨"A", "x"⟩, ⟨"B", "notanum"⟩],
         finfo := [("A", 0), ("B", 1)], havemulti := false,
         attrs := ["A", "B"], multi := [] },
       .vStruct [.vStr "x", .vInt 0]) ∧
    GoVal.vStruct [.vStr "x", .vInt 0] ≠ GoVal.vStruct [.vStr "", .vInt 0] := by
  refine ⟨rfl, ?_⟩
  intro h
  simp at h

/-- C6 fails on the code: `encodeSlice` discards the error of each
    element's `Encode` call, so a slice whose second element has an
    invalid value (an embedded line terminator) encodes with no error
    reported and the first element's bytes already written to the sink;
    and for a single struct, `writeTuple` writes the tuple separator and
    earlier tuples before validating, so a failing `Encode` call leaves
    `A=x ` in the sink rather than nothing. -/
theorem C6_partial_encode_output_and_swallowed_error :
    EncodeF 5 ⟨false, []⟩ (.tSlice (.tMap .tString))
        (.vSlice [.vMap [("a", .vStr "x")], .vMap [("b", .vStr "y\nz")]]) =
      some (.ok (), ⟨false, ["a", "=", "x"]⟩) ∧
    String.join ["a", "=", "x"] = "a=x" ∧
    EncodeF 5 ⟨false, []⟩ (.tStruct [.mk "A" none .tString, .mk "B" none .tString])
        (.vStruct [.vStr "x", .vStr "y\nz"]) =
      some (.error (.syntaxErr "Invalid value y\nz" 0),
            ⟨false, ["A", "=", "x", " "]⟩) ∧
    String.join ["A", "=", "x", " "] = "A=x " := by
  refine ⟨rfl, rfl, rfl, rfl⟩

/-- C8 fails on the code at a value allowed by the claim's hypotheses:
    the record with single string field `Title = "can't"` (no line
    terminators, no shared attribute names) encodes to `Title=can''t`,
    but decoding that line takes the unquoted-value path, which never
    sets the `esc` flag, so the doubled quote is not collapsed and the
    decoded value is `can''t`, not `can't`. -/
theorem C8_counterexample_quote_in_unquoted_value :
    roundTrip [.mk "Title" none .tString] [.vStr "can\x27t"] =
      some (.vStruct [.vStr "can\x27\x27t"]) ∧
    Marshal 2 (.tStruct [.mk "Title" none .tString])
        (.vStruct [.vStr "can\x27t"]) = some (.ok "Title=can\x27\x27t") ∧
    GoVal.vStruct [.vStr "can\x27\x27t"] ≠ GoVal.vStruct [.vStr "can\x27t"] := by
  refine ⟨rfl, rfl, ?_⟩
  intro h
  simp at h

/-- C10: an attribute token followed by whitespace or end-of-line without
    an `=` sign is accepted, producing a pair with an empty value: for
    every non-empty list of alphanumeric attribute tokens, the line
    joining them with single spaces tokenizes successfully into one
    empty-valued pair per token (appended to the decoder's pair buffer);
    and in a mixed line an attribute-only tuple followed by whitespace and
    an ordinary tuple also yields its empty-valued pair. -/
theorem C10_attr_only_tuples (d : DecState) (toks : List String)
    (h1 : toks ≠ [])
    (h2 : ∀ t ∈ toks, t.toList ≠ [] ∧ ∀ c ∈ t.toList, isAlnum c = true) :
    (parseLine d (attrLine toks)).1 =
      .ok (d.pairbuf ++ toks.map (fun t => ⟨t, ""⟩)) ∧
    (parseLine (newDecoder []) "foo bar=1").1 =
      .ok [⟨"foo", ""⟩, ⟨"bar", "1"⟩] := by
  refine ⟨?_, rfl⟩
  have hL := attrLine_toList toks
  unfold parseLine
  rw [hL]
  have hwf : ∀ u ∈ toks.map String.toList,
      u ≠ [] ∧ ∀ c ∈ u, isAlnum c = true := by
    intro u hu
    rw [List.mem_map] at hu
    obtain ⟨t, ht, rfl⟩ := hu
    exact h2 t ht
  have hne : toks.map String.toList ≠ [] := by
    cases toks with
    | nil => exact absurd rfl h1
    | cons x xs => simp
  have h := lexLoop_attr_only (sepJoin (toks.map String.toList))
    (toks.map String.toList) 0 d 0 false "" hne hwf (by simp)
  rw [h]
  simp [List.map_map]

/-- Witness for C10 at the concrete token list `["foo", "bar"]`. -/
theorem C10_attr_only_tuples_witness :
    (parseLine (newDecoder []) (attrLine ["foo", "bar"])).1 =
      .ok [⟨"foo", ""⟩, ⟨"bar", ""⟩] := by
  have h := (C10_attr_only_tuples (newDecoder []) ["foo", "bar"]
    (by decide) (by decide)).1
  simpa using h

/-! ### C2: the slice-decode loop never terminates at end-of-input -/

/-- With the Line Source already at end-of-input, each `Decode` call into
    the element returns `io.EOF`, so the (inverted) loop condition keeps
    the loop running forever, whatever the fuel. -/
theorem decodeSliceLoop_eof_diverges :
    ∀ (n : Nat) (addv : GoVal) (acc : List GoVal),
      decodeSliceLoop n (newDecoder []) (.tMap .tString) addv acc = none := by
  intro n
  induction n with
  | zero => intro addv acc; rfl
  | succ m ih =>
    intro addv acc
    cases m with
    | zero => rfl
    | succ k =>
      show decodeSliceLoop (k + 1 + 1) (newDecoder []) (.tMap .tString) addv acc = none
      have h1 : DecodeF (k + 1) (newDecoder []) (.tMap .tString) addv =
          some (.error .eofErr, newDecoder [], addv) := rfl
      simp only [decodeSliceLoop, h1]
      exact ih addv (acc ++ [addv])

/-- C2 fails on the code: decoding into a pointer-to-slice when the line
    source is already at end-of-input never terminates — for every fuel
    bound the `decodeSlice` loop is still running (`none`), because
    `io.EOF` satisfies the loop's `err != nil` condition and the decoder
    state never changes. -/
theorem C2_decode_empty_input_diverges :
    ∀ (n : Nat),
      DecodeF n (newDecoder []) (.tSlice (.tMap .tString)) (.vSlice []) = none := by
  intro n
  cases n with
  | zero => rfl
  | succ m =>
    show decodeSliceLoop m (newDecoder []) (.tMap .tString)
      (zeroVal (.tMap .tString)) [] = none
    exact decodeSliceLoop_eof_diverges m _ []

/-! ### Decimal conversion lemmas -/

lemma natChars_ne_nil (n : Nat) : natChars n ≠ [] := by
  unfold natChars
  split
  · simp
  · rename_i h
    intro hmap
    have hd : Nat.digits 10 n ≠ [] := Nat.digits_ne_nil_iff_ne_zero.mpr h
    simp at hmap
    exact hd hmap

lemma natChars_digits (n : Nat) : ∀ c ∈ natChars n, goIsNumber c = true := by
  intro c hc
  unfold natChars at hc
  split at hc
  · simp at hc; subst hc; decide
  · rw [List.mem_map] at hc
    obtain ⟨d, hd, rfl⟩ := hc
    rw [List.mem_reverse] at hd
    have hlt : d < 10 := Nat.digits_lt_base (by norm_num) hd
    interval_cases d <;> decide

lemma digit_foldl_map (ds : List Nat) (hds : ∀ d ∈ ds, d < 10) :
    ∀ acc : Nat,
      List.foldl (fun a c => a * 10 + (Char.toNat c - 48)) acc
        (ds.map digitChar) =
      List.foldl (fun a d => a * 10 + d) acc ds := by
  induction ds with
  | nil => intro acc; rfl
  | cons d ds ih =>
    intro acc
    have hd : d < 10 := hds d (by simp)
    have htn : (digitChar d).toNat - 48 = d := by
      interval_cases d <;> decide
    simp only [List.map_cons, List.foldl_cons, htn]
    exact ih (fun x hx => hds x (by simp [hx])) _

lemma digit_foldl_reverse (ds : List Nat) :
    ∀ acc : Nat,
      List.foldl (fun a d => a * 10 + d) acc ds.reverse =
        acc * 10 ^ ds.length + Nat.ofDigits 10 ds := by
  induction ds with
  | nil => intro acc; simp
  | cons d ds ih =>
    intro acc
    rw [List.reverse_cons, List.foldl_append, ih acc]
    simp only [List.foldl_cons, List.foldl_nil, Nat.ofDigits_cons,
      List.length_cons]
    ring

lemma digitsToNat_natChars (n : Nat) : digitsToNat (natChars n) = n := by
  by_cases h : n = 0
  · subst h; decide
  · unfold natChars digitsToNat
    rw [if_neg h]
    rw [digit_foldl_map _ (fun d hd =>
      Nat.digits_lt_base (by norm_num) (List.mem_reverse.mp hd)) 0]
    rw [digit_foldl_reverse]
    simp [Nat.ofDigits_digits]

lemma parseUnsigned_natChars (n : Nat) :
    parseUnsigned (natChars n) = some n := by
  unfold parseUnsigned
  rw [if_neg (natChars_ne_nil n)]
  rw [if_pos (by rw [List.all_eq_true]; exact natChars_digits n)]
  rw [digitsToNat_natChars]

lemma toList_mk (l : List Char) : (String.mk l).toList = l := rfl

lemma goParseInt_goItoa (i : Int) (h1 : -(2 ^ 63) ≤ i) (h2 : i ≤ 2 ^ 63 - 1) :
    goParseInt (goItoa i) = some i := by
  by_cases hneg : i < 0
  · have hrep : goItoa i = ⟨'-' :: natChars i.natAbs⟩ := by
      unfold goItoa; rw [if_pos hneg]
    rw [hrep]
    simp only [goParseInt, toList_mk, if_true]
    rw [if_neg (show ¬ '-' = '+' by decide), parseUnsigned_natChars]
    have hle : i.natAbs ≤ int64Max + 1 := by
      unfold int64Max; omega
    simp only [Option.bind_eq_bind, Option.some_bind]
    rw [if_pos hle]
    congr 1
    omega
  · have hrep : goItoa i = ⟨natChars i.natAbs⟩ := by
      unfold goItoa; rw [if_neg hneg]
    rw [hrep]
    obtain ⟨c, cs, hc⟩ : ∃ c cs, natChars i.natAbs = c :: cs := by
      cases hn : natChars i.natAbs with
      | nil => exact absurd hn (natChars_ne_nil _)
      | cons x xs => exact ⟨x, xs, rfl⟩
    have hcd : goIsNumber c = true := natChars_digits _ c (by rw [hc]; simp)
    have hplus : ¬ c = '+' := fun he => by subst he; exact absurd hcd (by decide)
    have hminus : ¬ c = '-' := fun he => by subst he; exact absurd hcd (by decide)
    simp only [goParseInt, toList_mk, hc]
    rw [if_neg hplus, if_neg hminus, ← hc, parseUnsigned_natChars]
    have hle : i.natAbs ≤ int64Max := by
      unfold int64Max; omega
    simp only [Option.bind_eq_bind, Option.some_bind]
    rw [if_pos hle]
    congr 1
    omega

/-! ### Character-class lemmas for the round-trip proof -/

lemma alnum_attrBadChar {c : Char} (h : isAlnum c = true) :
    attrBadChar c = false := by
  unfold attrBadChar
  rw [if_neg (alnum_ne h (by decide))]
  rw [alnum_not_space h]
  simp only [Bool.false_eq_true, if_false]
  rw [isAlnum, Bool.or_eq_true] at h
  rcases h with hl | hn
  · simp [hl]
  · simp [hn]

lemma goodAttr_validAttr {a : String} (h : goodAttr a = true) :
    validAttr a = true := by
  unfold goodAttr at h
  rw [Bool.and_eq_true] at h
  obtain ⟨-, hall⟩ := h
  rw [List.all_eq_true] at hall
  unfold validAttr
  rw [Bool.not_eq_true']
  rw [List.any_eq_false]
  intro c hc
  simp [alnum_attrBadChar (hall c hc)]

lemma goodAttr_ne_nil {a : String} (h : goodAttr a = true) :
    a.toList ≠ [] := by
  unfold goodAttr at h
  rw [Bool.and_eq_true] at h
  obtain ⟨hne, -⟩ := h
  simpa using hne

lemma goodAttr_alnum {a : String} (h : goodAttr a = true) :
    ∀ c ∈ a.toList, isAlnum c = true := by
  unfold goodAttr at h
  rw [Bool.and_eq_true] at h
  obtain ⟨-, hall⟩ := h
  rw [List.all_eq_true] at hall
  exact hall

lemma goodStr_ne_nil {s : String} (h : goodStr s = true) :
    s.toList ≠ [] := by
  unfold goodStr at h
  rw [Bool.and_eq_true] at h
  obtain ⟨hne, -⟩ := h
  simpa using hne

lemma goodStr_chars {s : String} (h : goodStr s = true) :
    ∀ c ∈ s.toList, ¬ c = quoteChar ∧ ¬ c = '\n' := by
  unfold goodStr at h
  rw [Bool.and_eq_true] at h
  obtain ⟨-, hall⟩ := h
  rw [List.all_eq_true] at hall
  intro c hc
  have h2 := hall c hc
  simp only [Bool.and_eq_true, Bool.not_eq_true', decide_eq_false_iff_not] at h2
  exact ⟨h2.1.1, h2.1.2⟩

lemma no_newline_validVal {s : String}
    (h : ∀ c ∈ s.toList, ¬ c = '\n') : validVal s = true := by
  unfold validVal
  rw [Bool.not_eq_true']
  by_cases hm : '\n' ∈ s.toList
  · exact absurd rfl (h _ hm)
  · simpa using hm

lemma no_quote_contains {s : String}
    (h : ∀ c ∈ s.toList, ¬ c = quoteChar) :
    s.toList.contains quoteChar = false := by
  by_cases hm : quoteChar ∈ s.toList
  · exact absurd rfl (h _ hm)
  · simpa using hm

lemma goItoa_chars (i : Int) :
    ∀ c ∈ (goItoa i).toList, goIsNumber c = true ∨ c = '-' := by
  intro c hc
  unfold goItoa at hc
  split at hc
  · rw [toList_mk] at hc
    rcases List.mem_cons.mp hc with h | h
    · right; exact h
    · left; exact natChars_digits _ c h
  · rw [toList_mk] at hc
    left; exact natChars_digits _ c hc

lemma goItoa_ne_nil (i : Int) : (goItoa i).toList ≠ [] := by
  unfold goItoa
  split
  · rw [toList_mk]; simp
  · rw [toList_mk]; exact natChars_ne_nil _

lemma goItoa_no_quote (i : Int) :
    ∀ c ∈ (goItoa i).toList, ¬ c = quoteChar := by
  intro c hc
  rcases goItoa_chars i c hc with h | h
  · exact alnum_ne (by simp [isAlnum, h]) (by decide)
  · subst h; decide

lemma goItoa_no_newline (i : Int) :
    ∀ c ∈ (goItoa i).toList, ¬ c = '\n' := by
  intro c hc
  rcases goItoa_chars i c hc with h | h
  · exact alnum_ne (by simp [isAlnum, h]) (by decide)
  · subst h; decide

lemma goItoa_no_space (i : Int) :
    ∀ c ∈ (goItoa i).toList, goIsSpace c = false := by
  intro c hc
  rcases goItoa_chars i c hc with h | h
  · exact alnum_not_space (by simp [isAlnum, h])
  · subst h; decide

/-! ### Encode-side lemmas -/

lemma writeElem_good (e : EncState) (k : String) (v : GoVal)
    (hattr : validAttr k = true)
    (hval : validVal (goFprintVal v) = true)
    (hnq : (goFprintVal v).toList.contains quoteChar = false) :
    writeElem e k v =
      (.ok (), ⟨true, e.out ++ tupleChunks e.start k (goFprintVal v)⟩) := by
  unfold writeElem tupleChunks
  cases hst : e.start <;>
    by_cases hsp : (goFprintVal v).toList.any goIsSpace = true <;>
      simp only [hattr, hval, hnq, hst, hsp, Bool.not_true, Bool.not_false,
        Bool.false_eq_true, Bool.true_eq_false, if_false, if_true,
        List.append_assoc, List.nil_append, List.cons_append] <;>
      simp [List.append_assoc]

lemma encodeStruct_good :
    ∀ (fs : List GoField) (vs : List GoVal),
      (∀ p ∈ fs.zip vs, goodPair p.1 p.2 = true) →
      ∀ e : EncState,
        encodeStruct e fs vs =
          (.ok (), ⟨if (fs.zip vs).isEmpty then e.start else true,
                    e.out ++ encOut e.start (fs.zip vs)⟩) := by
  intro fs
  induction fs with
  | nil =>
    intro vs _ e
    show ((.ok (), e) : Except GoErr Unit × EncState) = _
    simp [encOut]
  | cons f fr ih =>
    intro vs h e
    cases vs with
    | nil =>
      show ((.ok (), e) : Except GoErr Unit × EncState) = _
      simp [encOut]
    | cons v vr =>
      have hp : goodPair f v = true := h (f, v) (by simp)
      unfold goodPair at hp
      rw [Bool.and_eq_true] at hp
      obtain ⟨hka, hm⟩ := hp
      have hva := goodAttr_validAttr hka
      have step : writeTuple e (fieldKey f) (tupleValues v) =
          (.ok (), ⟨true, e.out ++ tupleChunks e.start (fieldKey f)
            (goFprintVal v)⟩) := by
        cases hft : f.typ <;> rw [hft] at hm <;> cases v <;>
          first
          | (simp at hm; done)
          | skip
        · -- int field, int value
          rename_i i
          show writeTuple e (fieldKey f) [GoVal.vInt i] = _
          unfold writeTuple
          rw [writeElem_good e (fieldKey f) (GoVal.vInt i) hva
            (no_newline_validVal (goItoa_no_newline i))
            (no_quote_contains (goItoa_no_quote i))]
          rfl
        · -- string field, string value
          rename_i s0
          show writeTuple e (fieldKey f) [GoVal.vStr s0] = _
          unfold writeTuple
          rw [writeElem_good e (fieldKey f) (GoVal.vStr s0) hva
            (no_newline_validVal (fun c hc => (goodStr_chars hm c hc).2))
            (no_quote_contains (fun c hc => (goodStr_chars hm c hc).1))]
          rfl
      show ((match writeTuple e (fieldKey f) (tupleValues v) with
        | (.error err, e1) => (.error err, e1)
        | (.ok _, e1) => encodeStruct e1 fr vr) :
          Except GoErr Unit × EncState) = _
      rw [step]
      show encodeStruct ⟨true, e.out ++ tupleChunks e.start (fieldKey f)
        (goFprintVal v)⟩ fr vr = _
      rw [ih vr (fun p hp2 => h p (by simp [hp2]))]
      simp [encOut, List.append_assoc, ite_self, List.zip]

lemma Marshal_good (fs : List GoField) (vs : List GoVal)
    (h : ∀ p ∈ fs.zip vs, goodPair p.1 p.2 = true) :
    Marshal 2 (.tStruct fs) (.vStruct vs) =
      some (.ok (String.join (encOut false (fs.zip vs)))) := by
  unfold Marshal
  show ((match EncodeF 2 ⟨false, []⟩ (.tStruct fs) (.vStruct vs) with
    | none => none
    | some (.error e, _) => some (.error e)
    | some (.ok _, es) => some (.ok (String.join es.out))) :
      Option (Except GoErr String)) = _
  have h1 : EncodeF 2 ⟨false, []⟩ (.tStruct fs) (.vStruct vs) =
      some (.ok (), ⟨false, encOut false (fs.zip vs)⟩) := by
    show (match (some (encodeStruct ⟨false, []⟩ fs vs) :
        Option (Except GoErr Unit × EncState)) with
      | none => none
      | some (r, e1) => some (r, { e1 with start := false })) = _
    rw [encodeStruct_good fs vs h ⟨false, []⟩]
    simp
  rw [h1]

/-! ### Chunk flattening lemmas -/

lemma join_foldl_toList :
    ∀ (l : List String) (acc : String),
      (l.foldl (fun r s0 => r ++ s0) acc).toList =
        acc.toList ++ (l.map String.toList).flatten := by
  intro l
  induction l with
  | nil => intro acc; simp
  | cons x xs ih =>
    intro acc
    simp only [List.foldl_cons, List.map_cons, List.flatten]
    rw [ih]
    simp [String.toList, String.data_append]

lemma toList_join (l : List String) :
    (String.join l).toList = (l.map String.toList).flatten := by
  unfold String.join
  rw [join_foldl_toList]
  rfl

lemma tupleChunks_chars (start : Bool) (k w : String) :
    ((tupleChunks start k w).map String.toList).flatten =
      (if start then [' '] else []) ++ renderTuple k w.toList := by
  unfold tupleChunks renderTuple renderVal
  by_cases hsp : w.toList.any goIsSpace = true
  · rw [if_pos hsp, if_pos hsp]
    cases start <;> simp [toList_mk]
  · rw [if_neg hsp, if_neg hsp]
    cases start <;> simp [toList_mk]

lemma encOut_true_chars :
    ∀ (l : List (GoField × GoVal)),
      ((encOut true l).map String.toList).flatten =
        (if l.isEmpty then ([] : List Char)
         else ' ' :: sepJoin (l.map fun p =>
           renderTuple (fieldKey p.1) (goFprintVal p.2).toList)) := by
  intro l
  induction l with
  | nil => rfl
  | cons p rest ih =>
    obtain ⟨f, v⟩ := p
    show ((tupleChunks true (fieldKey f) (goFprintVal v) ++
      encOut true rest).map String.toList).flatten = _
    rw [List.map_append, List.flatten_append, tupleChunks_chars, ih]
    cases rest with
    | nil => simp [sepJoin]
    | cons q qs =>
      simp only [List.isEmpty_cons, List.map_cons, if_true, if_false,
        List.isEmpty_nil, Bool.false_eq_true]
      show ' ' :: renderTuple (fieldKey f) (goFprintVal v).toList ++
        ' ' :: sepJoin _ = _
      simp [sepJoin]

lemma encOut_false_chars (l : List (GoField × GoVal)) :
    ((encOut false l).map String.toList).flatten =
      sepJoin (l.map fun p =>
        renderTuple (fieldKey p.1) (goFprintVal p.2).toList) := by
  cases l with
  | nil => rfl
  | cons p rest =>
    obtain ⟨f, v⟩ := p
    show ((tupleChunks false (fieldKey f) (goFprintVal v) ++
      encOut true rest).map String.toList).flatten = _
    rw [List.map_append, List.flatten_append, tupleChunks_chars,
      encOut_true_chars]
    cases rest with
    | nil => simp [sepJoin]
    | cons q qs =>
      simp only [List.isEmpty_cons, List.map_cons, List.nil_append,
        Bool.false_eq_true, if_false]
      show renderTuple (fieldKey f) (goFprintVal v).toList ++
        ' ' :: sepJoin _ = _
      simp [sepJoin]

/-! ### Lexer runs for value text -/

lemma lexLoop_value_run (line : List Char) (cs : List Char)
    (h : ∀ c ∈ cs, goIsSpace c = false) :
    ∀ (rest : List Char) (d : DecState) (b : Nat) (e : Bool) (a : String)
      (off : Nat),
      lexLoop line d ⟨[.scanValue], b, e, a⟩ off (cs ++ rest) =
      lexLoop line d ⟨[.scanValue], b, e, a⟩ (off + cs.length) rest := by
  induction cs with
  | nil => intro rest d b e a off; simp
  | cons c cs ih =>
    intro rest d b e a off
    have hc : goIsSpace c = false := h c (by simp)
    have hrest := ih (fun c0 hc0 => h c0 (by simp [hc0])) rest d b e a (off + 1)
    calc lexLoop line d ⟨[.scanValue], b, e, a⟩ off ((c :: cs) ++ rest)
        = lexLoop line d ⟨[.scanValue], b, e, a⟩ (off + 1) (cs ++ rest) := by
          simp [lexLoop, stackTop, hc]
      _ = lexLoop line d ⟨[.scanValue], b, e, a⟩ (off + 1 + cs.length) rest :=
          hrest
      _ = lexLoop line d ⟨[.scanValue], b, e, a⟩ (off + (c :: cs).length)
            rest := by
          have : off + 1 + cs.length = off + (c :: cs).length := by
            simp [List.length_cons]; omega
          rw [this]

lemma lexLoop_quoteValue_run (line : List Char) (cs : List Char)
    (h : ∀ c ∈ cs, ¬ c = quoteChar ∧ ¬ c = '\n') :
    ∀ (rest : List Char) (d : DecState) (b : Nat) (e : Bool) (a : String)
      (off : Nat),
      lexLoop line d ⟨[.scanQuoteValue], b, e, a⟩ off (cs ++ rest) =
      lexLoop line d ⟨[.scanQuoteValue], b, e, a⟩ (off + cs.length) rest := by
  induction cs with
  | nil => intro rest d b e a off; simp
  | cons c cs ih =>
    intro rest d b e a off
    have hq : ¬ c = quoteChar := (h c (by simp)).1
    have hn : ¬ c = '\n' := (h c (by simp)).2
    have hrest := ih (fun c0 hc0 => h c0 (by simp [hc0])) rest d b e a (off + 1)
    calc lexLoop line d ⟨[.scanQuoteValue], b, e, a⟩ off ((c :: cs) ++ rest)
        = lexLoop line d ⟨[.scanQuoteValue], b, e, a⟩ (off + 1) (cs ++ rest) := by
          simp [lexLoop, stackTop, hq, hn]
      _ = lexLoop line d ⟨[.scanQuoteValue], b, e, a⟩ (off + 1 + cs.length)
            rest := hrest
      _ = lexLoop line d ⟨[.scanQuoteValue], b, e, a⟩ (off + (c :: cs).length)
            rest := by
          have : off + 1 + cs.length = off + (c :: cs).length := by
            simp [List.length_cons]; omega
          rw [this]

/-- Consuming one unquoted `attr=value` tuple from the `scanNone`
    configuration, up to (not including) its terminator. -/
lemma lexLoop_tuple_unquoted (line : List Char) (kl : List Char) (w : List Char)
    (hk1 : kl ≠ []) (hk2 : ∀ c ∈ kl, isAlnum c = true)
    (hw1 : w ≠ []) (hwsp : ∀ c ∈ w, goIsSpace c = false)
    (hwq : ∀ c ∈ w, ¬ c = quoteChar)
    (rest : List Char) (d : DecState) (b : Nat) (a : String) (off : Nat)
    (hdrop : line.drop off = (kl ++ '=' :: w) ++ rest) :
    lexLoop line d ⟨[], b, false, a⟩ off ((kl ++ '=' :: w) ++ rest) =
      lexLoop line (markAttr d ⟨kl⟩)
        ⟨[.scanValue], off + kl.length + 1, false, ⟨kl⟩⟩
        (off + kl.length + 1 + w.length) rest := by
  obtain ⟨c0, cs, rfl⟩ : ∃ c0 cs, kl = c0 :: cs := by
    cases hx : kl with
    | nil => exact absurd hx hk1
    | cons x xs => exact ⟨x, xs, rfl⟩
  obtain ⟨w0, ws, rfl⟩ : ∃ w0 ws, w = w0 :: ws := by
    cases hx : w with
    | nil => exact absurd hx hw1
    | cons x xs => exact ⟨x, xs, rfl⟩
  have hc0 : isAlnum c0 = true := hk2 c0 (by simp)
  have hc0s : goIsSpace c0 = false := alnum_not_space hc0
  have hc0or : (goIsLetter c0 || goIsNumber c0) = true := hc0
  have hcs : ∀ c ∈ cs, isAlnum c = true := fun c hc => hk2 c (by simp [hc])
  have hslice2 : goSlice line off (off + (cs.length + 1)) =
      some (c0 :: cs) := by
    have hd : line.drop off = (c0 :: cs) ++ (('=' :: (w0 :: ws)) ++ rest) := by
      rw [hdrop, List.append_assoc]
    have h0 := goSlice_of_drop hd (by simp)
    simpa using h0
  have hw0q : ¬ w0 = quoteChar := hwq w0 (by simp)
  have hw0s : goIsSpace w0 = false := hwsp w0 (by simp)
  have hws : ∀ c ∈ ws, goIsSpace c = false :=
    fun c hc => hwsp c (by simp [hc])
  have heqs : goIsSpace '=' = false := rfl
  have step1 : lexLoop line d ⟨[], b, false, a⟩ off
        (((c0 :: cs) ++ '=' :: w0 :: ws) ++ rest) =
      lexLoop line d ⟨[.scanAttr], off, false, a⟩ (off + 1)
        (cs ++ (('=' :: w0 :: ws) ++ rest)) := by
    rw [List.append_assoc]
    simp [lexLoop, stackTop, hc0s, hc0or]
  have step2 : lexLoop line d ⟨[.scanAttr], off, false, a⟩ (off + 1)
        (cs ++ (('=' :: w0 :: ws) ++ rest)) =
      lexLoop line d ⟨[.scanAttr], off, false, a⟩ (off + 1 + cs.length)
        (('=' :: w0 :: ws) ++ rest) :=
    lexLoop_attr_run line cs hcs (('=' :: w0 :: ws) ++ rest)
      d off false a (off + 1)
  have step3 : lexLoop line d ⟨[.scanAttr], off, false, a⟩ (off + 1 + cs.length)
        (('=' :: w0 :: ws) ++ rest) =
      lexLoop line (markAttr d ⟨c0 :: cs⟩)
        ⟨[.scanValueStart], off, false, ⟨c0 :: cs⟩⟩ (off + 1 + cs.length + 1)
        ((w0 :: ws) ++ rest) := by
    have harith : off + 1 + cs.length = off + (cs.length + 1) := by omega
    rw [harith]
    simp [lexLoop, stackTop, heqs, hslice2, stackPop]
  have step4 : lexLoop line (markAttr d ⟨c0 :: cs⟩)
        ⟨[.scanValueStart], off, false, ⟨c0 :: cs⟩⟩ (off + 1 + cs.length + 1)
        ((w0 :: ws) ++ rest) =
      lexLoop line (markAttr d ⟨c0 :: cs⟩)
        ⟨[.scanValue], off + 1 + cs.length + 1, false, ⟨c0 :: cs⟩⟩
        (off + 1 + cs.length + 1 + 1) (ws ++ rest) := by
    simp [lexLoop, stackTop, hw0q, hw0s, stackPop]
  have step5 : lexLoop line (markAttr d ⟨c0 :: cs⟩)
        ⟨[.scanValue], off + 1 + cs.length + 1, false, ⟨c0 :: cs⟩⟩
        (off + 1 + cs.length + 1 + 1) (ws ++ rest) =
      lexLoop line (markAttr d ⟨c0 :: cs⟩)
        ⟨[.scanValue], off + 1 + cs.length + 1, false, ⟨c0 :: cs⟩⟩
        (off + 1 + cs.length + 1 + 1 + ws.length) rest :=
    lexLoop_value_run line ws hws rest (markAttr d ⟨c0 :: cs⟩)
      (off + 1 + cs.length + 1) false ⟨c0 :: cs⟩ (off + 1 + cs.length + 1 + 1)
  rw [step1, step2, step3, step4, step5]
  have e1 : off + 1 + cs.length + 1 = off + (c0 :: cs).length + 1 := by
    simp [List.length_cons]; omega
  have e2 : off + 1 + cs.length + 1 + 1 + ws.length =
      off + (c0 :: cs).length + 1 + (w0 :: ws).length := by
    simp [List.length_cons]; omega
  rw [e2, e1]

/-- Consuming one quoted `attr='value'` tuple from the `scanNone`
    configuration, up to (not including) its terminator. -/
lemma lexLoop_tuple_quoted (line : List Char) (kl : List Char) (w : List Char)
    (hk1 : kl ≠ []) (hk2 : ∀ c ∈ kl, isAlnum c = true)
    (hw1 : w ≠ []) (hwq : ∀ c ∈ w, ¬ c = quoteChar)
    (hwn : ∀ c ∈ w, ¬ c = '\n')
    (rest : List Char) (d : DecState) (b : Nat) (a : String) (off : Nat)
    (hdrop : line.drop off =
      (kl ++ '=' :: quoteChar :: (w ++ [quoteChar])) ++ rest) :
    lexLoop line d ⟨[], b, false, a⟩ off
        ((kl ++ '=' :: quoteChar :: (w ++ [quoteChar])) ++ rest) =
      lexLoop line (markAttr d ⟨kl⟩)
        ⟨[.scanQuoteClose], off + kl.length + 2, false, ⟨kl⟩⟩
        (off + kl.length + 2 + w.length + 1) rest := by
  obtain ⟨c0, cs, rfl⟩ : ∃ c0 cs, kl = c0 :: cs := by
    cases hx : kl with
    | nil => exact absurd hx hk1
    | cons x xs => exact ⟨x, xs, rfl⟩
  obtain ⟨w0, ws, rfl⟩ : ∃ w0 ws, w = w0 :: ws := by
    cases hx : w with
    | nil => exact absurd hx hw1
    | cons x xs => exact ⟨x, xs, rfl⟩
  have hc0 : isAlnum c0 = true := hk2 c0 (by simp)
  have hc0s : goIsSpace c0 = false := alnum_not_space hc0
  have hc0or : (goIsLetter c0 || goIsNumber c0) = true := hc0
  have hcs : ∀ c ∈ cs, isAlnum c = true := fun c hc => hk2 c (by simp [hc])
  have hslice2 : goSlice line off (off + (cs.length + 1)) =
      some (c0 :: cs) := by
    have hd : line.drop off = (c0 :: cs) ++
        (('=' :: quoteChar :: ((w0 :: ws) ++ [quoteChar])) ++ rest) := by
      rw [hdrop, List.append_assoc]
    have h0 := goSlice_of_drop hd (by simp)
    simpa using h0
  have hw0q : ¬ w0 = quoteChar := hwq w0 (by simp)
  have hws : ∀ c ∈ ws, ¬ c = quoteChar ∧ ¬ c = '\n' :=
    fun c hc => ⟨hwq c (by simp [hc]), hwn c (by simp [hc])⟩
  have heqs : goIsSpace '=' = false := rfl
  have step1 : lexLoop line d ⟨[], b, false, a⟩ off
        (((c0 :: cs) ++ '=' :: quoteChar :: ((w0 :: ws) ++ [quoteChar])) ++ rest) =
      lexLoop line d ⟨[.scanAttr], off, false, a⟩ (off + 1)
        (cs ++ (('=' :: quoteChar :: ((w0 :: ws) ++ [quoteChar])) ++ rest)) := by
    rw [List.append_assoc]
    simp [lexLoop, stackTop, hc0s, hc0or]
  have step2 : lexLoop line d ⟨[.scanAttr], off, false, a⟩ (off + 1)
        (cs ++ (('=' :: quoteChar :: ((w0 :: ws) ++ [quoteChar])) ++ rest)) =
      lexLoop line d ⟨[.scanAttr], off, false, a⟩ (off + 1 + cs.length)
        (('=' :: quoteChar :: ((w0 :: ws) ++ [quoteChar])) ++ rest) :=
    lexLoop_attr_run line cs hcs _ d off false a (off + 1)
  have step3 : lexLoop line d ⟨[.scanAttr], off, false, a⟩ (off + 1 + cs.length)
        (('=' :: quoteChar :: ((w0 :: ws) ++ [quoteChar])) ++ rest) =
      lexLoop line (markAttr d ⟨c0 :: cs⟩)
        ⟨[.scanValueStart], off, false, ⟨c0 :: cs⟩⟩ (off + 1 + cs.length + 1)
        ((quoteChar :: ((w0 :: ws) ++ [quoteChar])) ++ rest) := by
    have harith : off + 1 + cs.length = off + (cs.length + 1) := by omega
    rw [harith]
    simp [lexLoop, stackTop, heqs, hslice2, stackPop]
  have step4 : lexLoop line (markAttr d ⟨c0 :: cs⟩)
        ⟨[.scanValueStart], off, false, ⟨c0 :: cs⟩⟩ (off + 1 + cs.length + 1)
        ((quoteChar :: ((w0 :: ws) ++ [quoteChar])) ++ rest) =
      lexLoop line (markAttr d ⟨c0 :: cs⟩)
        ⟨[.scanQuoteStart, .scanValue], off + 1 + cs.length + 1, false,
          ⟨c0 :: cs⟩⟩
        (off + 1 + cs.length + 1 + 1) (((w0 :: ws) ++ [quoteChar]) ++ rest) := by
    simp [lexLoop, stackTop, stackPop]
  have step5 : lexLoop line (markAttr d ⟨c0 :: cs⟩)
        ⟨[.scanQuoteStart, .scanValue], off + 1 + cs.length + 1, false,
          ⟨c0 :: cs⟩⟩
        (off + 1 + cs.length + 1 + 1) (((w0 :: ws) ++ [quoteChar]) ++ rest) =
      lexLoop line (markAttr d ⟨c0 :: cs⟩)
        ⟨[.scanQuoteValue], off + 1 + cs.length + 1 + 1, false, ⟨c0 :: cs⟩⟩
        (off + 1 + cs.length + 1 + 1 + 1) (ws ++ ([quoteChar] ++ rest)) := by
    rw [show ((w0 :: ws) ++ [quoteChar]) ++ rest =
      w0 :: (ws ++ ([quoteChar] ++ rest)) by simp]
    simp [lexLoop, stackTop, hw0q, stackPop]
  have step6 : lexLoop line (markAttr d ⟨c0 :: cs⟩)
        ⟨[.scanQuoteValue], off + 1 + cs.length + 1 + 1, false, ⟨c0 :: cs⟩⟩
        (off + 1 + cs.length + 1 + 1 + 1) (ws ++ ([quoteChar] ++ rest)) =
      lexLoop line (markAttr d ⟨c0 :: cs⟩)
        ⟨[.scanQuoteValue], off + 1 + cs.length + 1 + 1, false, ⟨c0 :: cs⟩⟩
        (off + 1 + cs.length + 1 + 1 + 1 + ws.length) ([quoteChar] ++ rest) :=
    lexLoop_quoteValue_run line ws hws ([quoteChar] ++ rest)
      (markAttr d ⟨c0 :: cs⟩) (off + 1 + cs.length + 1 + 1) false ⟨c0 :: cs⟩
      (off + 1 + cs.length + 1 + 1 + 1)
  have step7 : lexLoop line (markAttr d ⟨c0 :: cs⟩)
        ⟨[.scanQuoteValue], off + 1 + cs.length + 1 + 1, false, ⟨c0 :: cs⟩⟩
        (off + 1 + cs.length + 1 + 1 + 1 + ws.length) ([quoteChar] ++ rest) =
      lexLoop line (markAttr d ⟨c0 :: cs⟩)
        ⟨[.scanQuoteClose], off + 1 + cs.length + 1 + 1, false, ⟨c0 :: cs⟩⟩
        (off + 1 + cs.length + 1 + 1 + 1 + ws.length + 1) rest := by
    simp [lexLoop, stackTop, stackPop]
  rw [step1, step2, step3, step4, step5, step6, step7]
  have e1 : off + 1 + cs.length + 1 + 1 = off + (c0 :: cs).length + 2 := by
    simp [List.length_cons]; omega
  have e2 : off + 1 + cs.length + 1 + 1 + 1 + ws.length + 1 =
      off + (c0 :: cs).length + 2 + (w0 :: ws).length + 1 := by
    simp [List.length_cons]; omega
  rw [e2, e1]

/-- Lexing a line of well-formed rendered tuples: one pair per tuple, and
    the decoder state evolves by `lexTupleStep` per tuple. -/
lemma lexLoop_tuples (line : List Char) :
    ∀ (tps : List (String × List Char)), tps ≠ [] →
      (∀ p ∈ tps, p.1.toList ≠ [] ∧ (∀ c ∈ p.1.toList, isAlnum c = true) ∧
        p.2 ≠ [] ∧ ∀ c ∈ p.2, ¬ c = quoteChar ∧ ¬ c = '\n') →
      ∀ (off : Nat) (d : DecState) (b : Nat) (a : String),
        line.drop off = sepJoin (tps.map fun p => renderTuple p.1 p.2) →
        lexLoop line d ⟨[], b, false, a⟩ off
            (sepJoin (tps.map fun p => renderTuple p.1 p.2)) =
          (.ok (lexRunState d tps).pairbuf, lexRunState d tps) := by
  intro tps
  induction tps with
  | nil => intro hne; exact absurd rfl hne
  | cons p tps2 ih =>
    obtain ⟨k, w⟩ := p
    intro _ hwf off d b a hdrop
    obtain ⟨hk1, hk2, hw1, hwc⟩ := hwf (k, w) (by simp)
    have hwq : ∀ c ∈ w, ¬ c = quoteChar := fun c hc => (hwc c hc).1
    have hwn : ∀ c ∈ w, ¬ c = '\n' := fun c hc => (hwc c hc).2
    by_cases hsp : w.any goIsSpace = true
    · -- quoted value
      have hrv : renderVal w = quoteChar :: (w ++ [quoteChar]) := by
        unfold renderVal; rw [if_pos hsp]
      cases tps2 with
      | nil =>
        have hsj : sepJoin ([(k, w)].map fun p => renderTuple p.1 p.2) =
            (k.toList ++ '=' :: quoteChar :: (w ++ [quoteChar])) ++ [] := by
          simp [sepJoin, renderTuple, hrv]
        rw [hsj]
        rw [hsj] at hdrop
        rw [lexLoop_tuple_quoted line k.toList w hk1 hk2 hw1 hwq hwn
          [] d b a off hdrop]
        have hdw : line.drop (off + k.toList.length + 2) =
            w ++ ([quoteChar] ++ []) := by
          have hd2 : line.drop off =
              (k.toList ++ ['=', quoteChar]) ++ (w ++ ([quoteChar] ++ [])) := by
            rw [hdrop]; simp [List.append_assoc]
          have h2 := drop_of_drop_eq hd2
          have harr : off + (k.toList ++ ['=', quoteChar]).length =
              off + k.toList.length + 2 := by
            simp [List.length_append]; omega
          rw [harr] at h2
          exact h2
        have hslice : goSlice line (off + k.toList.length + 2)
            (off + k.toList.length + 2 + w.length) = some w :=
          goSlice_of_drop hdw hw1
        have hsliceN : goSlice line (off + k.length + 2)
            (off + k.length + 2 + w.length) = some w := hslice
        show lexFinish line (markAttr d ⟨k.toList⟩)
          ⟨[.scanQuoteClose], off + k.toList.length + 2, false, ⟨k.toList⟩⟩
          (off + k.toList.length + 2 + w.length + 1) = _
        unfold lexFinish
        have hsub : off + k.toList.length + 2 + w.length + 1 - 1 =
            off + k.toList.length + 2 + w.length := by omega
        simp [stackTop, hsub, hslice, hsliceN, lexRunState, lexTupleStep,
          mkVal, markAttr_pairbuf]
        try rfl
      | cons q qs =>
        have hsj : sepJoin (((k, w) :: q :: qs).map fun p =>
            renderTuple p.1 p.2) =
            (k.toList ++ '=' :: quoteChar :: (w ++ [quoteChar])) ++
              (' ' :: sepJoin ((q :: qs).map fun p => renderTuple p.1 p.2)) := by
          simp [sepJoin, renderTuple, hrv, List.append_assoc]
        rw [hsj]
        rw [hsj] at hdrop
        rw [lexLoop_tuple_quoted line k.toList w hk1 hk2 hw1 hwq hwn
          _ d b a off hdrop]
        have hdw : line.drop (off + k.toList.length + 2) =
            w ++ ([quoteChar] ++
              (' ' :: sepJoin ((q :: qs).map fun p => renderTuple p.1 p.2))) := by
          have hd2 : line.drop off =
              (k.toList ++ ['=', quoteChar]) ++ (w ++ ([quoteChar] ++
                (' ' :: sepJoin ((q :: qs).map fun p =>
                  renderTuple p.1 p.2)))) := by
            rw [hdrop]; simp [List.append_assoc]
          have h2 := drop_of_drop_eq hd2
          have harr : off + (k.toList ++ ['=', quoteChar]).length =
              off + k.toList.length + 2 := by
            simp [List.length_append]; omega
          rw [harr] at h2
          exact h2
        have hslice : goSlice line (off + k.toList.length + 2)
            (off + k.toList.length + 2 + w.length) = some w :=
          goSlice_of_drop hdw hw1
        have hspc : goIsSpace ' ' = true := rfl
        have hsub : off + k.toList.length + 2 + w.length + 1 - 1 =
            off + k.toList.length + 2 + w.length := by omega
        have stepT : lexLoop line (markAttr d ⟨k.toList⟩)
              ⟨[.scanQuoteClose], off + k.toList.length + 2, false, ⟨k.toList⟩⟩
              (off + k.toList.length + 2 + w.length + 1)
              (' ' :: sepJoin ((q :: qs).map fun p => renderTuple p.1 p.2)) =
            lexLoop line (lexTupleStep d k w) ⟨[], off + k.toList.length + 2,
              false, ""⟩
              (off + k.toList.length + 2 + w.length + 1 + 1)
              (sepJoin ((q :: qs).map fun p => renderTuple p.1 p.2)) := by
          have hsliceN : goSlice line (off + k.length + 2)
              (off + k.length + 2 + w.length) = some w := hslice
          have hspq : ¬ (' ' = quoteChar) := by decide
          simp [lexLoop, stackTop, hspc, hspq, hsub, hslice, hsliceN,
            stackPop, lexTupleStep, mkVal, markAttr_pairbuf]
          try rfl
        rw [stepT]
        have hdrop2 : line.drop (off + k.toList.length + 2 + w.length + 1 + 1) =
            sepJoin ((q :: qs).map fun p => renderTuple p.1 p.2) := by
          have hd2 : line.drop off =
              ((k.toList ++ '=' :: quoteChar :: (w ++ [quoteChar])) ++ [' ']) ++
                sepJoin ((q :: qs).map fun p => renderTuple p.1 p.2) := by
            rw [hdrop]; simp [List.append_assoc]
          have h2 := drop_of_drop_eq hd2
          have harr : off + ((k.toList ++ '=' :: quoteChar ::
              (w ++ [quoteChar])) ++ [' ']).length =
              off + k.toList.length + 2 + w.length + 1 + 1 := by
            simp [List.length_append]; omega
          rw [harr] at h2
          exact h2
        rw [ih (by simp) (fun p hp => hwf p (by simp [hp]))
          (off + k.toList.length + 2 + w.length + 1 + 1)
          (lexTupleStep d k w) (off + k.toList.length + 2) "" hdrop2]
        rfl
    · -- unquoted value
      have hwsp : ∀ c ∈ w, goIsSpace c = false := by
        intro c hc
        by_contra hx
        rw [Bool.not_eq_false] at hx
        exact hsp (List.any_eq_true.mpr ⟨c, hc, hx⟩)
      have hrv : renderVal w = w := by
        unfold renderVal; rw [if_neg hsp]
      cases tps2 with
      | nil =>
        have hsj : sepJoin ([(k, w)].map fun p => renderTuple p.1 p.2) =
            (k.toList ++ '=' :: w) ++ [] := by
          simp [sepJoin, renderTuple, hrv]
        rw [hsj]
        rw [hsj] at hdrop
        rw [lexLoop_tuple_unquoted line k.toList w hk1 hk2 hw1 hwsp hwq
          [] d b a off hdrop]
        have hdw : line.drop (off + k.toList.length + 1) = w ++ [] := by
          have hd2 : line.drop off =
              (k.toList ++ ['=']) ++ (w ++ []) := by
            rw [hdrop]; simp [List.append_assoc]
          have h2 := drop_of_drop_eq hd2
          have harr : off + (k.toList ++ ['=']).length =
              off + k.toList.length + 1 := by
            simp [List.length_append]; omega
          rw [harr] at h2
          exact h2
        have hslice : goSlice line (off + k.toList.length + 1)
            (off + k.toList.length + 1 + w.length) = some w :=
          goSlice_of_drop hdw hw1
        have hsliceN : goSlice line (off + k.length + 1)
            (off + k.length + 1 + w.length) = some w := hslice
        show lexFinish line (markAttr d ⟨k.toList⟩)
          ⟨[.scanValue], off + k.toList.length + 1, false, ⟨k.toList⟩⟩
          (off + k.toList.length + 1 + w.length) = _
        unfold lexFinish
        simp [stackTop, hslice, hsliceN, lexRunState, lexTupleStep, mkVal,
          markAttr_pairbuf]
        try rfl
      | cons q qs =>
        have hsj : sepJoin (((k, w) :: q :: qs).map fun p =>
            renderTuple p.1 p.2) =
            (k.toList ++ '=' :: w) ++
              (' ' :: sepJoin ((q :: qs).map fun p => renderTuple p.1 p.2)) := by
          simp [sepJoin, renderTuple, hrv, List.append_assoc]
        rw [hsj]
        rw [hsj] at hdrop
        rw [lexLoop_tuple_unquoted line k.toList w hk1 hk2 hw1 hwsp hwq
          _ d b a off hdrop]
        have hdw : line.drop (off + k.toList.length + 1) =
            w ++ (' ' :: sepJoin ((q :: qs).map fun p =>
              renderTuple p.1 p.2)) := by
          have hd2 : line.drop off =
              (k.toList ++ ['=']) ++ (w ++
                (' ' :: sepJoin ((q :: qs).map fun p =>
                  renderTuple p.1 p.2))) := by
            rw [hdrop]; simp [List.append_assoc]
          have h2 := drop_of_drop_eq hd2
          have harr : off + (k.toList ++ ['=']).length =
              off + k.toList.length + 1 := by
            simp [List.length_append]; omega
          rw [harr] at h2
          exact h2
        have hslice : goSlice line (off + k.toList.length + 1)
            (off + k.toList.length + 1 + w.length) = some w :=
          goSlice_of_drop hdw hw1
        have hspc : goIsSpace ' ' = true := rfl
        have stepT : lexLoop line (markAttr d ⟨k.toList⟩)
              ⟨[.scanValue], off + k.toList.length + 1, false, ⟨k.toList⟩⟩
              (off + k.toList.length + 1 + w.length)
              (' ' :: sepJoin ((q :: qs).map fun p => renderTuple p.1 p.2)) =
            lexLoop line (lexTupleStep d k w) ⟨[], off + k.toList.length + 1,
              false, ""⟩
              (off + k.toList.length + 1 + w.length + 1)
              (sepJoin ((q :: qs).map fun p => renderTuple p.1 p.2)) := by
          have hsliceN : goSlice line (off + k.length + 1)
              (off + k.length + 1 + w.length) = some w := hslice
          simp [lexLoop, stackTop, hspc, hslice, hsliceN, stackPop,
            lexTupleStep, mkVal, markAttr_pairbuf]
          try rfl
        rw [stepT]
        have hdrop2 : line.drop (off + k.toList.length + 1 + w.length + 1) =
            sepJoin ((q :: qs).map fun p => renderTuple p.1 p.2) := by
          have hd2 : line.drop off =
              ((k.toList ++ '=' :: w) ++ [' ']) ++
                sepJoin ((q :: qs).map fun p => renderTuple p.1 p.2) := by
            rw [hdrop]; simp [List.append_assoc]
          have h2 := drop_of_drop_eq hd2
          have harr : off + ((k.toList ++ '=' :: w) ++ [' ']).length =
              off + k.toList.length + 1 + w.length + 1 := by
            simp [List.length_append]; omega
          rw [harr] at h2
          exact h2
        rw [ih (by simp) (fun p hp => hwf p (by simp [hp]))
          (off + k.toList.length + 1 + w.length + 1)
          (lexTupleStep d k w) (off + k.toList.length + 1) "" hdrop2]
        rfl

/-! ### Decoder-state bookkeeping lemmas -/

lemma mk_toList (s : String) : (⟨s.toList⟩ : String) = s := rfl

lemma lexTupleStep_pairbuf (d : DecState) (k : String) (w : List Char) :
    (lexTupleStep d k w).pairbuf = d.pairbuf ++ [⟨k, ⟨w⟩⟩] := by
  unfold lexTupleStep
  simp [markAttr_pairbuf]

lemma lexTupleStep_finfo (d : DecState) (k : String) (w : List Char) :
    (lexTupleStep d k w).finfo = d.finfo := by
  unfold lexTupleStep markAttr
  split <;> rfl

lemma lexTupleStep_lines (d : DecState) (k : String) (w : List Char) :
    (lexTupleStep d k w).lines = d.lines := by
  unfold lexTupleStep markAttr
  split <;> rfl

lemma lexRunState_pairbuf :
    ∀ (tps : List (String × List Char)) (d : DecState),
      (lexRunState d tps).pairbuf =
        d.pairbuf ++ tps.map (fun p => (⟨p.1, ⟨p.2⟩⟩ : Pair)) := by
  intro tps
  induction tps with
  | nil => intro d; simp [lexRunState]
  | cons p rest ih =>
    intro d
    obtain ⟨k, w⟩ := p
    show (lexRunState (lexTupleStep d k w) rest).pairbuf = _
    rw [ih, lexTupleStep_pairbuf]
    simp

lemma lexRunState_finfo :
    ∀ (tps : List (String × List Char)) (d : DecState),
      (lexRunState d tps).finfo = d.finfo := by
  intro tps
  induction tps with
  | nil => intro d; rfl
  | cons p rest ih =>
    intro d
    obtain ⟨k, w⟩ := p
    show (lexRunState (lexTupleStep d k w) rest).finfo = _
    rw [ih, lexTupleStep_finfo]

lemma lexRunState_lines :
    ∀ (tps : List (String × List Char)) (d : DecState),
      (lexRunState d tps).lines = d.lines := by
  intro tps
  induction tps with
  | nil => intro d; rfl
  | cons p rest ih =>
    intro d
    obtain ⟨k, w⟩ := p
    show (lexRunState (lexTupleStep d k w) rest).lines = _
    rw [ih, lexTupleStep_lines]

/-- With pairwise-distinct attribute names, all fresh to the decoder, no
    multiplicity is recorded. -/
lemma lexRunState_fresh :
    ∀ (tps : List (String × List Char)) (d : DecState),
      (tps.map Prod.fst).Nodup →
      (∀ p ∈ tps, setMem d.attrs p.1 = false) →
      (lexRunState d tps).multi = d.multi ∧
      (lexRunState d tps).havemulti = d.havemulti ∧
      (lexRunState d tps).attrs = d.attrs ++ tps.map Prod.fst := by
  intro tps
  induction tps with
  | nil => intro d _ _; refine ⟨rfl, rfl, by simp [lexRunState]⟩
  | cons p rest ih =>
    intro d hnd hfresh
    obtain ⟨k, w⟩ := p
    have hkfresh : setMem d.attrs k = false := hfresh (k, w) (by simp)
    have hstep : lexTupleStep d k w =
        { d with pairbuf := d.pairbuf ++ [⟨k, ⟨w⟩⟩],
                 attrs := d.attrs ++ [k] } := by
      unfold lexTupleStep markAttr setAdd setMem
      unfold setMem at hkfresh
      rw [hkfresh]
      simp [hkfresh]
    have hnd2 : (rest.map Prod.fst).Nodup := by
      simpa using hnd.of_cons
    have hknotin : k ∉ rest.map Prod.fst := by
      have := hnd
      simp only [List.map_cons, List.nodup_cons] at this
      exact this.1
    have hfresh2 : ∀ p ∈ rest, setMem (d.attrs ++ [k]) p.1 = false := by
      intro p hp
      have h1 : setMem d.attrs p.1 = false := hfresh p (by simp [hp])
      have h2 : ¬ p.1 = k := by
        intro he
        exact hknotin (by rw [← he]; exact List.mem_map_of_mem Prod.fst hp)
      unfold setMem at h1 ⊢
      have hm : ¬ p.1 ∈ d.attrs := by simpa using h1
      have hmm : ¬ p.1 ∈ d.attrs ++ [k] := by
        intro hx
        rcases List.mem_append.mp hx with hx1 | hx1
        · exact hm hx1
        · simp at hx1; exact h2 hx1
      simpa using hmm
    obtain ⟨m1, m2, m3⟩ := ih
      { d with pairbuf := d.pairbuf ++ [⟨k, ⟨w⟩⟩], attrs := d.attrs ++ [k] }
      hnd2 (fun p hp => hfresh2 p hp)
    have hrun : lexRunState d ((k, w) :: rest) =
        lexRunState (lexTupleStep d k w) rest := rfl
    rw [hrun, hstep, m1, m2, m3]
    refine ⟨rfl, rfl, by simp⟩

/-! ### Association-list and field-index lemmas -/

lemma mapGet_mapSet_self {α : Type} (m : List (String × α)) (k : String)
    (v : α) : mapGet (mapSet m k v) k = some v := by
  induction m with
  | nil => simp [mapSet, mapGet]
  | cons e rest ih =>
    obtain ⟨k0, v0⟩ := e
    by_cases h : k0 = k
    · subst h; simp [mapSet, mapGet]
    · simp [mapSet, mapGet, h, ih]

lemma mapGet_mapSet_ne {α : Type} (m : List (String × α)) (k k2 : String)
    (v : α) (h : ¬ k2 = k) : mapGet (mapSet m k v) k2 = mapGet m k2 := by
  have hs : ¬ k = k2 := fun he => h he.symm
  induction m with
  | nil => simp [mapSet, mapGet, hs]
  | cons e rest ih =>
    obtain ⟨k0, v0⟩ := e
    by_cases h0 : k0 = k
    · subst h0
      simp [mapSet, mapGet, hs]
    · simp [mapSet, mapGet, h0, ih]

lemma buildFinfo_untouched :
    ∀ (fs2 : List GoField) (i : Nat) (m : List (String × Nat)) (k : String),
      k ∉ fs2.map fieldKey →
      mapGet (buildFinfo i fs2 m) k = mapGet m k := by
  intro fs2
  induction fs2 with
  | nil => intro i m k _; rfl
  | cons f rest ih =>
    intro i m k hk
    have h1 : k ∉ rest.map fieldKey := by
      intro hx; exact hk (by simp [hx])
    have h2 : ¬ k = fieldKey f := by
      intro hx; exact hk (by simp [hx])
    show mapGet (buildFinfo (i + 1) rest (mapSet m (fieldKey f) i)) k = _
    rw [ih (i + 1) _ k h1, mapGet_mapSet_ne _ _ _ _ h2]

lemma buildFinfo_get :
    ∀ (fs2 : List GoField) (i : Nat) (m : List (String × Nat)) (j : Nat)
      (f : GoField),
      fs2.get? j = some f → (fs2.map fieldKey).Nodup →
      mapGet (buildFinfo i fs2 m) (fieldKey f) = some (i + j) := by
  intro fs2
  induction fs2 with
  | nil => intro i m j f hj; simp at hj
  | cons f0 rest ih =>
    intro i m j f hj hnd
    cases j with
    | zero =>
      have hj2 : f0 = f := by simpa using hj
      rw [← hj2]
      show mapGet (buildFinfo (i + 1) rest (mapSet m (fieldKey f0) i))
        (fieldKey f0) = _
      have hnotin : fieldKey f0 ∉ rest.map fieldKey := by
        simp only [List.map_cons, List.nodup_cons] at hnd
        exact hnd.1
      rw [buildFinfo_untouched rest (i + 1) _ _ hnotin,
        mapGet_mapSet_self]
      simp
    | succ j0 =>
      simp only [List.get?_cons_succ] at hj
      have hnd2 : (rest.map fieldKey).Nodup := by
        simp only [List.map_cons, List.nodup_cons] at hnd
        exact hnd.2
      show mapGet (buildFinfo (i + 1) rest (mapSet m (fieldKey f0) i))
        (fieldKey f) = _
      rw [ih (i + 1) _ j0 f hj hnd2]
      congr 1
      omega

lemma set_at_append {α : Type} :
    ∀ (xs : List α) (y : α) (ys : List α) (v : α),
      (xs ++ y :: ys).set xs.length v = xs ++ v :: ys := by
  intro xs
  induction xs with
  | nil => intro y ys v; rfl
  | cons x xs ih => intro y ys v; simp [List.set, ih]

/-! ### Binding the decoded pairs back into the record -/

lemma goodPair_attrKey {f : GoField} {v : GoVal} (h : goodPair f v = true) :
    goodAttr (fieldKey f) = true := by
  unfold goodPair at h
  rw [Bool.and_eq_true] at h
  exact h.1

lemma storeVal_goodPair {f : GoField} {v : GoVal} (h : goodPair f v = true) :
    storeVal f.typ (goFprintVal v) = .ok v := by
  unfold goodPair at h
  rw [Bool.and_eq_true] at h
  obtain ⟨-, hm⟩ := h
  cases hft : f.typ <;> rw [hft] at hm <;> cases v <;>
    first
    | (simp at hm; done)
    | skip
  · rename_i i
    rw [Bool.and_eq_true, decide_eq_true_eq, decide_eq_true_eq] at hm
    show storeVal .tInt (goItoa i) = .ok (.vInt i)
    unfold storeVal
    rw [goParseInt_goItoa i hm.1 hm.2]
  · rfl

lemma goodPair_val {f : GoField} {v : GoVal} (h : goodPair f v = true) :
    (goFprintVal v).toList ≠ [] ∧
    ∀ c ∈ (goFprintVal v).toList, ¬ c = quoteChar ∧ ¬ c = '\n' := by
  unfold goodPair at h
  rw [Bool.and_eq_true] at h
  obtain ⟨-, hm⟩ := h
  cases hft : f.typ <;> rw [hft] at hm <;> cases v <;>
    first
    | (simp at hm; done)
    | skip
  · rename_i i
    exact ⟨goItoa_ne_nil i,
      fun c hc => ⟨goItoa_no_quote i c hc, goItoa_no_newline i c hc⟩⟩
  · rename_i s0
    exact ⟨goodStr_ne_nil hm, goodStr_chars hm⟩

lemma saveStructLoop_rebuild (fsAll : List GoField) (vsAll : List GoVal)
    (hnodup : (fsAll.map fieldKey).Nodup)
    (hlen : fsAll.length = vsAll.length) :
    ∀ (fs2 : List GoField) (vs2 : List GoVal) (j : Nat),
      fsAll.drop j = fs2 → vsAll.drop j = vs2 →
      (∀ p ∈ fs2.zip vs2, goodPair p.1 p.2 = true) →
      saveStructLoop [] (buildFinfo 0 fsAll []) fsAll
          ((fs2.zip vs2).map (fun p => (⟨fieldKey p.1, goFprintVal p.2⟩ : Pair)))
          (vsAll.take j ++ zeroFields fs2) =
        (.ok (), vsAll) := by
  intro fs2
  induction fs2 with
  | nil =>
    intro vs2 j hdf _ _
    have hj : fsAll.length ≤ j := by
      have h1 := congrArg List.length hdf
      simp only [List.length_drop, List.length_nil] at h1
      omega
    have htake : vsAll.take j = vsAll := List.take_of_length_le (by omega)
    simp [saveStructLoop, zeroFields, htake]
  | cons f fs2x ih =>
    intro vs2 j hdf hdv hgood
    have hlen2 : vs2.length = (f :: fs2x).length := by
      rw [← hdf, ← hdv]
      simp [List.length_drop, hlen]
    cases vs2 with
    | nil => simp at hlen2
    | cons v vs2x =>
      have hgoodp : goodPair f v = true := hgood (f, v) (by simp)
      have hjget : fsAll.get? j = some f := by
        have h1 : (fsAll.drop j).get? 0 = fsAll.get? (j + 0) :=
          List.get?_drop fsAll j 0
        rw [hdf] at h1
        simpa using h1.symm
      have hvget : vsAll.get? j = some v := by
        have h1 : (vsAll.drop j).get? 0 = vsAll.get? (j + 0) :=
          List.get?_drop vsAll j 0
        rw [hdv] at h1
        simpa using h1.symm
      have hjlt : j < fsAll.length := by
        by_contra hx
        push_neg at hx
        rw [List.get?_eq_none.mpr hx] at hjget
        cases hjget
      have hfind : mapGet (buildFinfo 0 fsAll []) (fieldKey f) = some j := by
        have h1 := buildFinfo_get fsAll 0 [] j f hjget hnodup
        simpa using h1
      have hstore : storeVal f.typ (goFprintVal v) = .ok v :=
        storeVal_goodPair hgoodp
      have htklen : (vsAll.take j).length = j := by
        rw [List.length_take]
        omega
      have hdf2 : fsAll.drop (j + 1) = fs2x := by
        have h1 : List.drop 1 (List.drop j fsAll) = List.drop (j + 1) fsAll :=
          List.drop_drop 1 j fsAll
        rw [hdf] at h1
        simpa using h1.symm
      have hdv2 : vsAll.drop (j + 1) = vs2x := by
        have h1 : List.drop 1 (List.drop j vsAll) = List.drop (j + 1) vsAll :=
          List.drop_drop 1 j vsAll
        rw [hdv] at h1
        simpa using h1.symm
      have hzf : zeroFields (f :: fs2x) = zeroVal f.typ :: zeroFields fs2x := by
        obtain ⟨fn, ftag, ftyp⟩ := f
        rfl
      have hset : (vsAll.take j ++ zeroFields (f :: fs2x)).set j v =
          vsAll.take (j + 1) ++ zeroFields fs2x := by
        rw [hzf]
        have h1 := set_at_append (vsAll.take j) (zeroVal f.typ)
          (zeroFields fs2x) v
        rw [htklen] at h1
        rw [h1]
        have htk1 : vsAll.take (j + 1) = vsAll.take j ++ [v] := by
          have hv2 : vsAll[j]? = some v := by
            rw [← List.get?_eq_getElem?]
            exact hvget
          rw [List.take_succ, hv2]
          rfl
        rw [htk1]
        simp
      have hih := ih vs2x (j + 1) hdf2 hdv2
        (fun p hp => hgood p (by simp [hp]))
      show saveStructLoop [] (buildFinfo 0 fsAll []) fsAll
          ((⟨fieldKey f, goFprintVal v⟩ : Pair) ::
            ((fs2x.zip vs2x).map
              (fun p => (⟨fieldKey p.1, goFprintVal p.2⟩ : Pair))))
          (vsAll.take j ++ zeroFields (f :: fs2x)) = _
      unfold saveStructLoop
      rw [hfind]
      simp only [hjget, setMem, List.contains, List.elem, Bool.false_eq_true,
        if_false, hstore]
      rw [hset]
      exact hih

/-- C8 (amended): the round trip `decode(encode(v)) == v` holds for every
    record of simple scalar fields — string fields whose values are
    non-empty ASCII text containing no single quote and no line
    terminator, and `int` fields within 64-bit range — provided the
    attribute names are non-empty, consist of letters and digits only,
    and are pairwise distinct.  (The unrestricted claim fails: a quote
    inside an unquoted value is emitted verbatim but never unescaped on
    decode, attribute names with a dash are rejected by the lexer, and an
    empty value makes `parseLine` panic; the added hypotheses exclude
    exactly these.) -/
theorem C8_roundTrip_simple_scalars (fs : List GoField) (vs : List GoVal)
    (h : GoodRecord fs vs) :
    roundTrip fs vs = some (.vStruct vs) := by
  obtain ⟨hlen, hgood, hnodup⟩ := h
  by_cases hfs : fs = []
  · subst hfs
    have hvs : vs = [] := by
      cases vs with
      | nil => rfl
      | cons x xs => simp at hlen
    subst hvs
    rfl
  · set tps : List (String × List Char) :=
      (fs.zip vs).map (fun p => (fieldKey p.1, (goFprintVal p.2).toList))
      with htps
    have hzipne : fs.zip vs ≠ [] := by
      cases fs with
      | nil => exact absurd rfl hfs
      | cons f0 fsx =>
        cases vs with
        | nil => simp at hlen
        | cons v0 vsx => simp
    have htpsne : tps ≠ [] := by
      rw [htps]
      cases hz : fs.zip vs with
      | nil => exact absurd hz hzipne
      | cons a l => simp
    have hmapfst : tps.map Prod.fst = fs.map fieldKey := by
      rw [htps, List.map_map]
      have h1 : (fs.zip vs).map (Prod.fst ∘
          fun p => (fieldKey p.1, (goFprintVal p.2).toList)) =
          (fs.zip vs).map (fun p => fieldKey p.1) := rfl
      have h2 : (fs.zip vs).map (fun p => fieldKey p.1) =
          ((fs.zip vs).map Prod.fst).map fieldKey := by
        rw [List.map_map]
        rfl
      rw [h1, h2, List.map_fst_zip]
      omega
    have hwf : ∀ p ∈ tps, p.1.toList ≠ [] ∧
        (∀ c ∈ p.1.toList, isAlnum c = true) ∧
        p.2 ≠ [] ∧ ∀ c ∈ p.2, ¬ c = quoteChar ∧ ¬ c = '\n' := by
      intro p hp
      rw [htps, List.mem_map] at hp
      obtain ⟨q, hq, rfl⟩ := hp
      have hgp := hgood q hq
      exact ⟨goodAttr_ne_nil (goodPair_attrKey hgp),
        goodAttr_alnum (goodPair_attrKey hgp),
        (goodPair_val hgp).1, (goodPair_val hgp).2⟩
    have hchars : (String.join (encOut false (fs.zip vs))).toList =
        sepJoin (tps.map fun p => renderTuple p.1 p.2) := by
      rw [toList_join, encOut_false_chars, htps, List.map_map]
      rfl
    set enc : String := String.join (encOut false (fs.zip vs)) with henc
    set P : DecState := lexRunState (newDecoder []) tps with hP
    have hparse : parseLine (newDecoder []) enc = (.ok P.pairbuf, P) := by
      unfold parseLine
      rw [hchars]
      exact lexLoop_tuples (sepJoin (tps.map fun p => renderTuple p.1 p.2))
        tps htpsne hwf 0 (newDecoder []) 0 "" (by simp)
    have hgp2 : getPairs (newDecoder [enc]) = (.ok P.pairbuf, P) := by
      show (match parseLine (reset { newDecoder [enc] with lines := [] })
          enc with
        | (.ok ps, d2) => ((.ok ps : Except GoErr (List Pair)), d2)
        | (.synErr m o, d2) => (.error (.syntaxErr m o), d2)
        | (.panicked, d2) => (.error .panicked, d2)) = _
      rw [show reset { newDecoder [enc] with lines := [] } = newDecoder []
        from rfl]
      rw [hparse]
    have hfresh := lexRunState_fresh tps (newDecoder [])
      (by rw [hmapfst]; exact hnodup) (fun p _ => rfl)
    have hPfinfo : P.finfo = [] := by
      rw [hP, lexRunState_finfo]
      rfl
    have hPmulti : P.multi = [] := by
      rw [hP, hfresh.1]
      rfl
    have hPpairs : P.pairbuf =
        (fs.zip vs).map
          (fun p => (⟨fieldKey p.1, goFprintVal p.2⟩ : Pair)) := by
      rw [hP, lexRunState_pairbuf, htps, List.map_map]
      rfl
    have hloop := saveStructLoop_rebuild fs vs hnodup hlen fs vs 0
      (by simp) (by simp) hgood
    simp only [List.take_zero, List.nil_append] at hloop
    have hsave : saveStruct P fs P.pairbuf (zeroFields fs) =
        (.ok (), { P with finfo := buildFinfo 0 fs [] }, vs) := by
      simp only [saveStruct]
      rw [hPfinfo, hPmulti, hPpairs]
      rw [hloop]
    have hdec : UnmarshalRecord enc fs (zeroFields fs) =
        (.ok (), { P with finfo := buildFinfo 0 fs [] }, .vStruct vs) := by
      show Decode1 (newDecoder [enc]) (.tStruct fs)
        (.vStruct (zeroFields fs)) = _
      unfold Decode1
      rw [hgp2]
      show (match saveStruct P fs P.pairbuf (zeroFields fs) with
        | (r, d2, fields2) =>
          ((r : Except GoErr Unit), d2, GoVal.vStruct fields2)) = _
      rw [hsave]
    unfold roundTrip
    rw [Marshal_good fs vs hgood]
    show (match UnmarshalRecord enc fs (zeroFields fs) with
      | (.ok _, _, v) => some v
      | _ => none) = some (GoVal.vStruct vs)
    rw [hdec]

/-- Witness: the round trip at the repository-style record
    `{Host: "p2-jbs537", Native: 218}` with the `native` tag. -/
theorem C8_roundTrip_simple_scalars_witness :
    GoodRecord
      [GoField.mk "Host" none .tString, GoField.mk "Native" (some "native") .tInt]
      [GoVal.vStr "p2-jbs537", GoVal.vInt 218] ∧
    roundTrip
      [GoField.mk "Host" none .tString, GoField.mk "Native" (some "native") .tInt]
      [GoVal.vStr "p2-jbs537", GoVal.vInt 218] =
      some (.vStruct [GoVal.vStr "p2-jbs537", GoVal.vInt 218]) :=
  ⟨⟨by decide, by decide, by decide⟩,
    C8_roundTrip_simple_scalars _ _ ⟨by decide, by decide, by decide⟩⟩

end Ndb
